import Mathlib

/-!
# Verification of the nivo calendar layout engine (`packages/calendar/src/compute.js`)

Shallow embedding of the calendar heatmap layout computation.  Dates are
modelled the way a JS `Date` behaves under UTC: a civil triple
`(year, month 0-11, day-of-month 1-31)` together with a serial day number
(`serial` / `toSerial`, the timestamp divided by 86 400 000).  All pixel
arithmetic is done in `ℚ` (exact arithmetic in place of IEEE doubles).
JS `undefined` / `NaN` poisoning and thrown `TypeError`s are modelled with
`Option`.  Integer `/` and `%` below are Euclidean (= mathematical floor
division for the positive divisors used here), matching `Math.floor`.
-/

set_option autoImplicit false
set_option maxRecDepth 100000

namespace Calendar

/-- A civil date, mirroring the observable fields of a JS `Date` under UTC:
`y = getUTCFullYear()`, `m = getUTCMonth()` (0-based), `d = getUTCDate()`. -/
structure CDate where
  y : Int
  m : Int
  d : Int
  deriving DecidableEq, Repr

/-- Gregorian leap year predicate, as used by `Date`. -/
def isLeap (y : Int) : Bool :=
  (y % 4 == 0 && y % 100 != 0) || y % 400 == 0

/-- Number of days of month `m` (0-based) in year `y`. -/
def daysInMonth (y m : Int) : Int :=
  if m = 1 then (if isLeap y then 29 else 28)
  else if m = 3 ∨ m = 5 ∨ m = 8 ∨ m = 10 then 30
  else 31

/-- A `CDate` whose fields describe a real calendar day. -/
def CDate.Valid (dt : CDate) : Prop :=
  1 ≤ dt.y ∧ 0 ≤ dt.m ∧ dt.m ≤ 11 ∧ 1 ≤ dt.d ∧ dt.d ≤ daysInMonth dt.y dt.m

instance (dt : CDate) : Decidable dt.Valid := by
  unfold CDate.Valid; infer_instance

/-- Cumulative day count before month `m` (0-based), counted from March
(the classical civil-calendar month table, so the leap day sits at the end):
306 for January, 337 for February, 0 for March, 31 for April, … 275 for
December. -/
def monthDays (m : Int) : Int :=
  (153 * ((m + 10) % 12) + 2) / 5

/-- Day count contributed by whole (March-based) years up to `y`. -/
def serialYearPart (y : Int) : Int :=
  365 * y + y / 4 - y / 100 + y / 400

/-- Serial day number of a civil date `(y, m, d)`: days since 1970-01-01
(so `serial 1970 0 1 = 0`), the JS timestamp divided by one day. -/
def serial (y m d : Int) : Int :=
  serialYearPart (if m ≤ 1 then y - 1 else y) + monthDays m + d - 1 - 719468

/-- Serial day number of a `CDate`. -/
def toSerial (dt : CDate) : Int :=
  serial dt.y dt.m dt.d

/-- `Date.prototype.getUTCDay`: 0 = Sunday … 6 = Saturday
(1970-01-01 was a Thursday). -/
def weekday (dt : CDate) : Int :=
  (toSerial dt + 4) % 7

/-- The next calendar day. -/
def nextDay (dt : CDate) : CDate :=
  if dt.d < daysInMonth dt.y dt.m then ⟨dt.y, dt.m, dt.d + 1⟩
  else if dt.m < 11 then ⟨dt.y, dt.m + 1, 1⟩
  else ⟨dt.y + 1, 0, 1⟩

theorem isLeap_iff (y : Int) :
    isLeap y = true ↔ ((y % 4 = 0 ∧ y % 100 ≠ 0) ∨ y % 400 = 0) := by
  simp [isLeap, Bool.or_eq_true, Bool.and_eq_true, beq_iff_eq, bne_iff_ne]

/-- Sanity anchors for the serial formula. -/
example : serial 1970 0 1 = 0 := by decide
example : weekday ⟨1970, 0, 1⟩ = 4 := by decide
example : weekday ⟨2023, 0, 1⟩ = 0 := by decide
example : serial 2000 2 1 - serial 2000 1 28 = 2 := by decide
example : serial 2023 2 1 - serial 2023 1 28 = 1 := by decide

/-- Stepping one (March-based) year adds 365 days plus the leap day. -/
theorem serialYearPart_succ (y : Int) :
    serialYearPart y = serialYearPart (y - 1) + 365 + (if isLeap y then 1 else 0) := by
  by_cases hl : isLeap y = true
  · rw [if_pos hl]
    rw [isLeap_iff] at hl
    unfold serialYearPart
    omega
  · rw [if_neg hl]
    rw [isLeap_iff] at hl
    push_neg at hl
    unfold serialYearPart
    omega

theorem serial_day_step (y m d : Int) :
    serial y m (d + 1) = serial y m d + 1 := by
  unfold serial; ring

theorem serial_month_step (y m : Int) (hm0 : 0 ≤ m) (hm1 : m ≤ 10) :
    serial y (m + 1) 1 = serial y m (daysInMonth y m) + 1 := by
  interval_cases m <;>
    (norm_num [serial, serialYearPart, daysInMonth, monthDays]
     try (split_ifs <;> simp only [isLeap_iff] at *)
     all_goals omega)

theorem serial_year_step (y : Int) :
    serial (y + 1) 0 1 = serial y 11 31 + 1 := by
  norm_num [serial, serialYearPart, monthDays]
  omega

theorem daysInMonth_lb (y m : Int) : 28 ≤ daysInMonth y m := by
  unfold daysInMonth; split_ifs <;> omega

theorem daysInMonth_ub (y m : Int) : daysInMonth y m ≤ 31 := by
  unfold daysInMonth; split_ifs <;> omega

/-- The serial number of the successor day is one more:
the civil formula and the field-level successor agree. -/
theorem toSerial_nextDay (dt : CDate) (h : dt.Valid) :
    toSerial (nextDay dt) = toSerial dt + 1 := by
  obtain ⟨hy, hm0, hm1, hd0, hd1⟩ := h
  unfold nextDay
  split_ifs with h1 h2
  · show serial dt.y dt.m (dt.d + 1) = serial dt.y dt.m dt.d + 1
    exact serial_day_step dt.y dt.m dt.d
  · show serial dt.y (dt.m + 1) 1 = serial dt.y dt.m dt.d + 1
    have hd : dt.d = daysInMonth dt.y dt.m := le_antisymm hd1 (by omega)
    rw [hd]
    exact serial_month_step dt.y dt.m hm0 (by omega)
  · show serial (dt.y + 1) 0 1 = serial dt.y dt.m dt.d + 1
    have hm : dt.m = 11 := by omega
    have hd31 : daysInMonth dt.y dt.m = 31 := by
      rw [hm]; unfold daysInMonth; norm_num
    have hd : dt.d = 31 := by omega
    rw [hm, hd]
    exact serial_year_step dt.y

theorem nextDay_valid (dt : CDate) (h : dt.Valid) : (nextDay dt).Valid := by
  obtain ⟨hy, hm0, hm1, hd0, hd1⟩ := h
  unfold nextDay
  split_ifs with h1 h2
  · show 1 ≤ dt.y ∧ 0 ≤ dt.m ∧ dt.m ≤ 11 ∧ 1 ≤ dt.d + 1 ∧ dt.d + 1 ≤ daysInMonth dt.y dt.m
    exact ⟨hy, hm0, hm1, by omega, by omega⟩
  · show 1 ≤ dt.y ∧ 0 ≤ dt.m + 1 ∧ dt.m + 1 ≤ 11 ∧ (1 : Int) ≤ 1 ∧
      1 ≤ daysInMonth dt.y (dt.m + 1)
    exact ⟨hy, by omega, by omega, le_refl 1, by have := daysInMonth_lb dt.y (dt.m + 1); omega⟩
  · show 1 ≤ dt.y + 1 ∧ (0 : Int) ≤ 0 ∧ (0 : Int) ≤ 11 ∧ (1 : Int) ≤ 1 ∧
      1 ≤ daysInMonth (dt.y + 1) 0
    exact ⟨by omega, le_refl 0, by omega, le_refl 1, by have := daysInMonth_lb (dt.y + 1) 0; omega⟩

/-! ## Serial-number bounds and monotonicity -/

theorem serial_eq_early (y m d : Int) (hm : m ≤ 1) :
    serial y m d = serialYearPart (y - 1) + monthDays m + d - 1 - 719468 := by
  simp [serial, hm]

theorem serial_eq_late (y m d : Int) (hm : ¬ m ≤ 1) :
    serial y m d = serialYearPart y + monthDays m + d - 1 - 719468 := by
  simp [serial, hm]

theorem serialYearPart_succ_bounds (y : Int) :
    serialYearPart (y - 1) + 365 ≤ serialYearPart y ∧
    serialYearPart y ≤ serialYearPart (y - 1) + 366 := by
  unfold serialYearPart
  constructor <;> omega

theorem monthDays_nonneg (m : Int) : 0 ≤ monthDays m := by
  unfold monthDays; omega

theorem monthDays_late_ub (m : Int) (h0 : 2 ≤ m) (h1 : m ≤ 11) : monthDays m ≤ 275 := by
  unfold monthDays; omega

/-- Within its year, a valid date's serial number sits between the serial
numbers of January 1st of that year and of the next year. -/
theorem toSerial_year_bounds (dt : CDate) (h : dt.Valid) :
    serial dt.y 0 1 ≤ toSerial dt ∧ toSerial dt < serial (dt.y + 1) 0 1 := by
  obtain ⟨hy, hm0, hm1, hd0, hd1⟩ := h
  have hub := daysInMonth_ub dt.y dt.m
  have hs := serialYearPart_succ_bounds dt.y
  have hmd306 : monthDays 0 = 306 := by decide
  have hmd337 : monthDays 1 = 337 := by decide
  have hjan : serial dt.y 0 1 = serialYearPart (dt.y - 1) + 306 + 1 - 1 - 719468 := by
    rw [serial_eq_early dt.y 0 1 (by norm_num), hmd306]
  have hjan2 : serial (dt.y + 1) 0 1 = serialYearPart dt.y + 306 + 1 - 1 - 719468 := by
    rw [serial_eq_early (dt.y + 1) 0 1 (by norm_num)]
    simp only [add_sub_cancel_right, hmd306]
  unfold toSerial
  rcases le_or_lt dt.m 1 with hm | hm
  · rw [serial_eq_early dt.y dt.m dt.d hm, hjan, hjan2]
    rcases (by omega : dt.m = 0 ∨ dt.m = 1) with h0 | h1
    · rw [h0, hmd306]; rw [h0] at hub hd1; omega
    · rw [h1, hmd337]; rw [h1] at hub hd1
      have h29 : daysInMonth dt.y 1 ≤ 29 := by
        unfold daysInMonth; norm_num; split_ifs <;> omega
      omega
  · have hne : ¬ dt.m ≤ 1 := by omega
    rw [serial_eq_late dt.y dt.m dt.d hne, hjan, hjan2]
    have hmub := monthDays_late_ub dt.m (by omega) (by omega)
    have hmlb := monthDays_nonneg dt.m
    omega

/-- January 1st serial numbers increase by at least 365 per year. -/
theorem serial_jan1_mono (y1 y2 : Int) (h : y1 ≤ y2) :
    serial y1 0 1 + 365 * (y2 - y1) ≤ serial y2 0 1 := by
  simp only [serial, serialYearPart, monthDays]
  norm_num
  omega

/-- A valid date with a strictly smaller year has a strictly smaller serial. -/
theorem toSerial_lt_of_year_lt (d e : CDate) (hd : d.Valid) (he : e.Valid)
    (h : d.y < e.y) : toSerial d < toSerial e := by
  have h1 := (toSerial_year_bounds d hd).2
  have h2 := (toSerial_year_bounds e he).1
  have h3 := serial_jan1_mono (d.y + 1) e.y (by omega)
  omega

/-- The year of a valid date is recovered from its serial-number range. -/
theorem year_eq_of_serial_range (dt : CDate) (h : dt.Valid) (Y : Int)
    (h1 : serial Y 0 1 ≤ toSerial dt) (h2 : toSerial dt < serial (Y + 1) 0 1) :
    dt.y = Y := by
  rcases lt_trichotomy dt.y Y with hlt | heq | hgt
  · have hb := (toSerial_year_bounds dt h).2
    have := serial_jan1_mono (dt.y + 1) Y (by omega)
    omega
  · exact heq
  · have hb := (toSerial_year_bounds dt h).1
    have := serial_jan1_mono (Y + 1) dt.y (by omega)
    omega

/-! ## Month-first dates and month indices -/

/-- Absolute month index of a civil date (`12·year + month`). -/
def monthIdx (dt : CDate) : Int :=
  12 * dt.y + dt.m

/-- First day of the month with absolute index `i`. -/
def monthFirst (i : Int) : CDate :=
  ⟨i / 12, i % 12, 1⟩

theorem monthFirst_valid (i : Int) (h : 12 ≤ i) : (monthFirst i).Valid := by
  refine ⟨?_, ?_, ?_, le_refl 1, ?_⟩
  · show 1 ≤ i / 12
    omega
  · show 0 ≤ i % 12
    omega
  · show i % 12 ≤ 11
    omega
  · show 1 ≤ daysInMonth (i / 12) (i % 12)
    have := daysInMonth_lb (i / 12) (i % 12)
    omega

theorem monthIdx_monthFirst (i : Int) : monthIdx (monthFirst i) = i := by
  show 12 * (i / 12) + i % 12 = i
  omega

/-- Stepping to the next month-first advances the serial number by the length
of the current month. -/
theorem serial_monthFirst_step (i : Int) :
    toSerial (monthFirst (i + 1)) =
      toSerial (monthFirst i) + daysInMonth (i / 12) (i % 12) := by
  rcases lt_or_ge (i % 12) 11 with hm | hm
  · have h1 : (i + 1) / 12 = i / 12 := by omega
    have h2 : (i + 1) % 12 = i % 12 + 1 := by omega
    show serial ((i+1)/12) ((i+1)%12) 1 = serial (i/12) (i%12) 1 + _
    rw [h1, h2]
    have := serial_month_step (i / 12) (i % 12) (by omega) (by omega)
    have hd1 : 1 ≤ daysInMonth (i / 12) (i % 12) := le_trans (by norm_num) (daysInMonth_lb _ _)
    calc serial (i / 12) (i % 12 + 1) 1
        = serial (i / 12) (i % 12) (daysInMonth (i / 12) (i % 12)) + 1 := this
      _ = serial (i / 12) (i % 12) 1 + daysInMonth (i / 12) (i % 12) := by
          simp only [serial]; ring
  · have hm' : i % 12 = 11 := by omega
    have h1 : (i + 1) / 12 = i / 12 + 1 := by omega
    have h2 : (i + 1) % 12 = 0 := by omega
    show serial ((i+1)/12) ((i+1)%12) 1 = serial (i/12) (i%12) 1 + _
    rw [h1, h2, hm']
    have hd : daysInMonth (i / 12) 11 = 31 := by norm_num [daysInMonth]
    rw [hd]
    have := serial_year_step (i / 12)
    have h31 : serial (i / 12) 11 31 = serial (i / 12) 11 1 + 30 := by
      simp only [serial]; ring
    omega

/-- Month-first serial numbers grow by at least 28 per month index step. -/
theorem serial_monthFirst_mono (i j : Int) (h : i ≤ j) :
    toSerial (monthFirst i) + 28 * (j - i) ≤ toSerial (monthFirst j) := by
  obtain ⟨k, rfl⟩ : ∃ k : Nat, j = i + k := ⟨(j - i).toNat, by omega⟩
  clear h
  induction k with
  | zero => simp
  | succ n ih =>
    have hs := serial_monthFirst_step (i + n)
    have ha : i + ((n : Int) + 1) = (i + (n : Int)) + 1 := by ring
    push_cast
    rw [ha]
    have hlb := daysInMonth_lb ((i + (n : Int)) / 12) ((i + (n : Int)) % 12)
    push_cast at ih
    omega

/-! ## Integer ranges and day iteration -/

/-- `intRange s n = [s, s+1, …, s+n-1]`. -/
def intRange (s : Int) : Nat → List Int
  | 0 => []
  | n + 1 => s :: intRange (s + 1) n

theorem intRange_mem (s : Int) (n : Nat) (x : Int) :
    x ∈ intRange s n ↔ s ≤ x ∧ x < s + n := by
  induction n generalizing s with
  | zero => simp [intRange]
  | succ k ih =>
    simp only [intRange, List.mem_cons, ih]
    push_cast
    omega

theorem intRange_nodup (s : Int) (n : Nat) : (intRange s n).Nodup := by
  induction n generalizing s with
  | zero => simp [intRange]
  | succ k ih =>
    simp only [intRange, List.nodup_cons]
    refine ⟨fun hmem => ?_, ih (s + 1)⟩
    rw [intRange_mem] at hmem
    omega

theorem intRange_append (s : Int) (n m : Nat) :
    intRange s n ++ intRange (s + n) m = intRange s (n + m) := by
  induction n generalizing s with
  | zero => simp [intRange]
  | succ k ih =>
    simp only [intRange, List.cons_append]
    have h2 : k + 1 + m = (k + m) + 1 := by omega
    rw [h2]
    simp only [intRange]
    congr 1
    rw [← ih (s + 1)]
    congr 2
    push_cast
    ring

/-- The list of `n` consecutive calendar days starting at `a`. -/
def dayIter : CDate → Nat → List CDate
  | _, 0 => []
  | a, n + 1 => a :: dayIter (nextDay a) n

theorem dayIter_map_serial (a : CDate) (n : Nat) (ha : a.Valid) :
    (dayIter a n).map toSerial = intRange (toSerial a) n := by
  induction n generalizing a with
  | zero => simp [dayIter, intRange]
  | succ k ih =>
    simp only [dayIter, intRange, List.map_cons]
    rw [ih (nextDay a) (nextDay_valid a ha), toSerial_nextDay a ha]

theorem dayIter_valid (a : CDate) (n : Nat) (ha : a.Valid) :
    ∀ d ∈ dayIter a n, d.Valid := by
  induction n generalizing a with
  | zero => simp [dayIter]
  | succ k ih =>
    intro d hd
    simp only [dayIter, List.mem_cons] at hd
    rcases hd with rfl | hd
    · exact ha
    · exact ih (nextDay a) (nextDay_valid a ha) d hd

/-! ## Model of the d3-time primitives used by the source

`timeDays`, `timeMonths`, `timeWeeks`, `timeWeek.count` and `timeYear` from
d3-time, specialised to the midnight/month-first arguments the source feeds
them. -/

/-- `timeDays(a, b)`: every day in `[a, b)` (the source always passes
midnights). -/
def timeDays (a b : CDate) : List CDate :=
  dayIter a (toSerial b - toSerial a).toNat

/-- `timeMonths(a, b)`: every first-of-month in `[a, b)`.  The source only
calls it on month-first block bounds, for which this month-index enumeration
is exactly d3's ceil-and-step loop. -/
def timeMonths (a b : CDate) : List CDate :=
  (List.range (monthIdx b - monthIdx a).toNat).map
    (fun (k : Nat) => monthFirst (monthIdx a + (k : Int)))

/-- Serial number of the latest Sunday not after serial day `s`
(`timeWeek.floor`). -/
def sundayFloor (s : Int) : Int :=
  s - (s + 4) % 7

/-- Serial number of the earliest Sunday not before serial day `s`
(`timeWeek.ceil`). -/
def sundayCeil (s : Int) : Int :=
  s + (3 - s) % 7

/-- `timeWeek.count(a, b)`: d3 floors both ends to Sundays and counts weeks
between them. -/
def weekCount (a b : CDate) : Int :=
  (sundayFloor (toSerial b) - sundayFloor (toSerial a)) / 7

/-- `timeWeeks(a, b).length`: the number of Sundays in `[a, b)`. -/
def timeWeeksLen (a b : CDate) : Int :=
  max 0 ((toSerial b - sundayCeil (toSerial a) + 6) / 7)

/-- `timeYear(d)`: January 1st of `d`'s year. -/
def timeYear (dt : CDate) : CDate :=
  ⟨dt.y, 0, 1⟩

theorem weekCount_mono (a b c : CDate) (h : toSerial b ≤ toSerial c) :
    weekCount a b ≤ weekCount a c := by
  unfold weekCount sundayFloor
  omega

/-! ## The `%Y-%m-%d` day format (`dayFormat` in the source) -/

/-- The ASCII digit character for `n < 10`. -/
def digitChar (n : Nat) : Char :=
  Char.ofNat (48 + n)

/-- A two-digit zero-padded decimal field. -/
def pad2 (n : Nat) : List Char :=
  [digitChar (n / 10 % 10), digitChar (n % 10)]

/-- A four-digit zero-padded decimal field. -/
def pad4 (n : Nat) : List Char :=
  [digitChar (n / 1000 % 10), digitChar (n / 100 % 10),
   digitChar (n / 10 % 10), digitChar (n % 10)]

/-- `timeFormat('%Y-%m-%d')`: the strict zero-padded `YYYY-MM-DD` key used
for day cells and data matching (faithful for years up to 9999). -/
def dayFormat (dt : CDate) : String :=
  String.mk (pad4 dt.y.toNat ++ '-' :: (pad2 (dt.m + 1).toNat ++ '-' :: pad2 dt.d.toNat))

theorem dayFormat_length (dt : CDate) : (dayFormat dt).length = 10 := rfl

theorem digitChar_inj (a b : Nat) (ha : a < 10) (hb : b < 10)
    (h : digitChar a = digitChar b) : a = b := by
  interval_cases a <;> interval_cases b <;> revert h <;> decide

/-- On dates with four-digit years the `YYYY-MM-DD` key determines the date. -/
theorem dayFormat_inj (d1 d2 : CDate)
    (h1v : d1.Valid) (h2v : d2.Valid) (h1y : d1.y ≤ 9999) (h2y : d2.y ≤ 9999)
    (h : dayFormat d1 = dayFormat d2) : d1 = d2 := by
  obtain ⟨ha1, hb1, hc1, hd1, he1⟩ := h1v
  obtain ⟨ha2, hb2, hc2, hd2, he2⟩ := h2v
  have hub1 := daysInMonth_ub d1.y d1.m
  have hub2 := daysInMonth_ub d2.y d2.m
  unfold dayFormat at h
  have h' : (pad4 d1.y.toNat ++ '-' :: (pad2 (d1.m + 1).toNat ++ '-' :: pad2 d1.d.toNat))
      = (pad4 d2.y.toNat ++ '-' :: (pad2 (d2.m + 1).toNat ++ '-' :: pad2 d2.d.toNat)) :=
    congrArg String.data h
  unfold pad4 pad2 at h'
  simp only [List.cons_append, List.nil_append, List.cons.injEq, and_true] at h'
  obtain ⟨g1, g2, g3, g4, g5, g6, g7, g8, g9, g10⟩ := h'
  have e1 := digitChar_inj _ _ (by omega) (by omega) g1
  have e2 := digitChar_inj _ _ (by omega) (by omega) g2
  have e3 := digitChar_inj _ _ (by omega) (by omega) g3
  have e4 := digitChar_inj _ _ (by omega) (by omega) g4
  have e6 := digitChar_inj _ _ (by omega) (by omega) g6
  have e7 := digitChar_inj _ _ (by omega) (by omega) g7
  have e9 := digitChar_inj _ _ (by omega) (by omega) g9
  have e10 := digitChar_inj _ _ (by omega) (by omega) g10
  have hy : d1.y = d2.y := by omega
  have hm : d1.m = d2.m := by omega
  have hd : d1.d = d2.d := by omega
  cases d1; cases d2
  simp only at hy hm hd
  simp [hy, hm, hd]

/-! ## Embedding of `packages/calendar/src/compute.js`

Pixel quantities are `ℚ`.  JS `undefined`/`NaN` values flowing through
numeric fields are modelled as `none : Option ℚ`; a thrown `TypeError`
aborts the surrounding computation, modelled by an outer `Option`. -/

/-- Axis-aligned bounding box (`{x, y, width, height}`). -/
structure BBox where
  x : ℚ
  y : ℚ
  width : ℚ
  height : ℚ
  deriving DecidableEq, Repr

/-- One command of a month outline path (the SVG string serialisation is the
rendering layer's concern and is out of scope). -/
inductive PathCmd where
  | M (x y : ℚ)
  | H (x : ℚ)
  | V (y : ℚ)
  | Z
  deriving DecidableEq, Repr

/-- `Math.min` on exact rationals (spelled out so that the kernel can
evaluate it; Mathlib's `min` on `ℚ` does not reduce). -/
def qmin (a b : ℚ) : ℚ := if a ≤ b then a else b

/-- `Math.max` on exact rationals. -/
def qmax (a b : ℚ) : ℚ := if a ≤ b then b else a

theorem qmin_le_left (a b : ℚ) : qmin a b ≤ a := by
  unfold qmin; split_ifs with h <;> linarith

theorem qmin_le_right (a b : ℚ) : qmin a b ≤ b := by
  unfold qmin; split_ifs with h <;> linarith

theorem le_qmax_left (a b : ℚ) : a ≤ qmax a b := by
  unfold qmax; split_ifs with h <;> linarith

theorem le_qmax_right (a b : ℚ) : b ≤ qmax a b := by
  unfold qmax; split_ifs with h <;> linarith

/-- `computeCellSize`: solves the two per-axis linear constraints and keeps
the smaller candidate. -/
def computeCellSize (width height : ℚ) (direction : String) (blocks : ℚ)
    (yearSpacing monthSpacing daySpacing : ℚ) (maxRowsMonth : ℚ)
    (maxColumnsGroup : ℚ) (monthsPerGroup : ℚ) : ℚ :=
  let hCellSize : ℚ :=
    if direction = "horizontal" then
      (width - monthSpacing * monthsPerGroup - daySpacing * maxColumnsGroup) / maxColumnsGroup
    else
      (width - (blocks - 1) * yearSpacing - blocks * (maxRowsMonth * daySpacing)) /
        (blocks * maxRowsMonth)
  let vCellSize : ℚ :=
    if direction = "horizontal" then
      (height - (blocks - 1) * yearSpacing - blocks * (maxRowsMonth * daySpacing)) /
        (blocks * maxRowsMonth)
    else
      (height - monthSpacing * monthsPerGroup - daySpacing * maxColumnsGroup) / maxColumnsGroup
  qmin hCellSize vCellSize

structure PathBBox where
  path : List PathCmd
  bbox : BBox
  deriving DecidableEq, Repr

/-- `monthPathAndBBox`: outline and bounding box of one month.  `t1` is
`new Date(y, m + 1, 0)`, the last day of month `m`.  The memoization wrapper
(`memoMonthPathAndBBox`) is the identity on this pure function. -/
def monthPathAndBBox (date : CDate) (cellSize : ℚ) (yearIndex : Int)
    (yearSpacing monthSpacing daySpacing : ℚ) (direction : String)
    (originX originY : ℚ) : PathBBox :=
  let t1 : CDate := ⟨date.y, date.m, daysInMonth date.y date.m⟩
  let firstWeek : ℚ := (weekCount (timeYear date) date : ℚ)
  let lastWeek : ℚ := (weekCount (timeYear t1) t1 : ℚ)
  let firstDay : ℚ := (weekday date : ℚ)
  let lastDay : ℚ := (weekday t1 : ℚ)
  let yearOffset : ℚ := (yearIndex : ℚ) * (7 * (cellSize + daySpacing) + yearSpacing)
  let monthOffset : ℚ := (date.m : ℚ) * monthSpacing
  let xO : ℚ := if direction = "horizontal" then originX + monthOffset else originX + yearOffset
  let yO : ℚ := if direction = "horizontal" then originY + yearOffset else originY + monthOffset
  if direction = "horizontal" then
    { path := [
        .M (xO + (firstWeek + 1) * (cellSize + daySpacing)) (yO + firstDay * (cellSize + daySpacing)),
        .H (xO + firstWeek * (cellSize + daySpacing)), .V (yO + 7 * (cellSize + daySpacing)),
        .H (xO + lastWeek * (cellSize + daySpacing)), .V (yO + (lastDay + 1) * (cellSize + daySpacing)),
        .H (xO + (lastWeek + 1) * (cellSize + daySpacing)), .V yO,
        .H (xO + (firstWeek + 1) * (cellSize + daySpacing)), .Z],
      bbox := {
        x := xO + firstWeek * (cellSize + daySpacing), y := yO,
        width := xO + (lastWeek + 1) * (cellSize + daySpacing) -
          (xO + firstWeek * (cellSize + daySpacing)),
        height := 7 * (cellSize + daySpacing) } }
  else
    { path := [
        .M (xO + firstDay * (cellSize + daySpacing)) (yO + (firstWeek + 1) * (cellSize + daySpacing)),
        .H xO, .V (yO + (lastWeek + 1) * (cellSize + daySpacing)),
        .H (xO + (lastDay + 1) * (cellSize + daySpacing)), .V (yO + lastWeek * (cellSize + daySpacing)),
        .H (xO + 7 * (cellSize + daySpacing)), .V (yO + firstWeek * (cellSize + daySpacing)),
        .H (xO + firstDay * (cellSize + daySpacing)), .Z],
      bbox := {
        x := xO, y := yO + firstWeek * (cellSize + daySpacing),
        width := 7 * (cellSize + daySpacing),
        height := yO + (lastWeek + 1) * (cellSize + daySpacing) -
          (yO + firstWeek * (cellSize + daySpacing)) } }

/-- `getElapsedMonths(from, to)` (UTC fields). -/
def getElapsedMonths (f t : CDate) : Int :=
  t.m - f.m + 12 * (t.y - f.y)

/-- `getWeekOfTheMonth(date)`. -/
def getWeekOfTheMonth (date : CDate) : Int :=
  (date.d + weekday ⟨date.y, date.m, 1⟩ - 1) / 7

def getA (d : CDate) (blockIndex : Int) (yearSpacing daySpacing : ℚ)
    (maxRowsMonth : Int) (cellSize : ℚ) : ℚ :=
  (getWeekOfTheMonth d : ℚ) * (cellSize + daySpacing) + daySpacing / 2 +
    (blockIndex : ℚ) * (yearSpacing + (maxRowsMonth : ℚ) * (cellSize + daySpacing))

def getB (d startDate : CDate) (monthSpacing daySpacing cellSize : ℚ) : ℚ :=
  (getElapsedMonths startDate d : ℚ) * 7 * (cellSize + daySpacing) +
    (weekday d : ℚ) * (cellSize + daySpacing) + daySpacing / 2 +
    (getElapsedMonths startDate d : ℚ) * monthSpacing

def getC (d : CDate) (blockIndex : Int) (yearSpacing daySpacing : ℚ)
    (maxRowsMonth : Int) (cellSize : ℚ) : ℚ :=
  (weekday d : ℚ) * (cellSize + daySpacing) + daySpacing / 2 +
    (blockIndex : ℚ) * (yearSpacing + (maxRowsMonth : ℚ) * (cellSize + daySpacing))

def getD (d startDate : CDate) (monthSpacing daySpacing cellSize : ℚ) : ℚ :=
  (weekCount startDate d : ℚ) * (cellSize + daySpacing) + daySpacing / 2 +
    (getElapsedMonths startDate d : ℚ) * monthSpacing

/-- Result of one cell-position closure: the outer `Option` is a thrown
`TypeError` (the closures dereference `startDate`, which `computeLayout`
leaves `undefined`); an inner `none` coordinate is a `NaN`. -/
def CellPos := Option (Option ℚ × Option ℚ)

def cellPositionHorizontalVertical (cellSize yearSpacing monthSpacing daySpacing : ℚ)
    (maxRowsMonth : Int) :
    ℚ → ℚ → CDate → Int → Option CDate → CellPos :=
  fun originX originY d blockIndex startDate =>
    match startDate with
    | none => none  -- getD calls getElapsedMonths on the missing startDate: TypeError
    | some s => some
        (some (originX + getD d s monthSpacing daySpacing cellSize),
         some (originY + getC d blockIndex yearSpacing daySpacing maxRowsMonth cellSize))

def cellPositionVerticalHorizontal (cellSize yearSpacing monthSpacing daySpacing : ℚ)
    (maxRowsMonth : Int) :
    ℚ → ℚ → CDate → Int → Option CDate → CellPos :=
  fun originX originY d blockIndex startDate =>
    match startDate with
    | none => none  -- getD dereferences the missing startDate: TypeError
    | some s => some
        (some (originX + getC d blockIndex yearSpacing daySpacing maxRowsMonth cellSize),
         some (originY + getD d s monthSpacing daySpacing cellSize))

set_option linter.unusedVariables false in
def cellPositionVerticalVertical (cellSize yearSpacing monthSpacing daySpacing : ℚ)
    (maxRowsMonth : Int) :
    ℚ → ℚ → CDate → Int → Option CDate → CellPos :=
  fun _originX originY d blockIndex startDate =>
    match startDate with
    | none => none  -- getB dereferences the missing startDate: TypeError
    | some s =>
      -- the source invokes getA without its trailing cellSize argument, so
      -- the x coordinate is NaN
      let _ := blockIndex
      some (none, some (originY + getB d s monthSpacing daySpacing cellSize))

set_option linter.unusedVariables false in
def cellPositionHorizontalHorizontal (cellSize yearSpacing monthSpacing daySpacing : ℚ)
    (maxRowsMonth : Int) :
    ℚ → ℚ → CDate → Int → Option CDate → CellPos :=
  fun originX _originY d blockIndex startDate =>
    match startDate with
    | none => none  -- getB dereferences the missing startDate: TypeError
    | some s =>
      -- the source invokes getA without its trailing cellSize argument, so
      -- the y coordinate is NaN
      let _ := blockIndex
      some (some (originX + getB d s monthSpacing daySpacing cellSize), none)

/-! ### The `maxRowsMonth` scan (month granularity, horizontal weeks) -/

/-- The JS variable `maxRowsMonth` before its use: declared but possibly
still `undefined`, possibly `NaN` (from `Math.max(undefined, 4)`), possibly
a number. -/
inductive MRM where
  | undef : MRM
  | nan : MRM
  | val : Int → MRM
  deriving DecidableEq, Repr

/-- `maxRowsMonth = Math.max(maxRowsMonth, 4)`:  `Math.max(undefined, 4)`
is `NaN`, and `NaN` is absorbing. -/
def jsMaxWith4 : MRM → MRM
  | MRM.undef => MRM.nan
  | .nan => .nan
  | .val n => .val (max n 4)

/-- `new Date(y, m + i, 0).getDate()`: the number of days of the month
*preceding* month `m + i`. -/
def scanDays (date : CDate) (i : Int) : Int :=
  daysInMonth ((monthIdx date + i - 1) / 12) ((monthIdx date + i - 1) % 12)

/-- One iteration of the inner scan loop; `aux` (the block start) is never
advanced inside the loop, and reaching 6 breaks out. -/
def scanStep (date : CDate) (st : MRM) (i : Int) : MRM :=
  if st = .val 6 then st
  else
    if scanDays date i + weekday date ≥ 37 then .val 6
    else if scanDays date i + weekday date = 28 then jsMaxWith4 st
    else .val 5

/-- The inner `while (i < breakpoint)` scan over one block. -/
def scanBlock (date : CDate) (breakpoint : Int) (st : MRM) : MRM :=
  (List.range breakpoint.toNat).foldl
    (fun (acc : MRM) (i : Nat) => scanStep date acc (i : Int)) st

/-- `aux.setMonth(aux.getMonth() + k)` on a day-1 date. -/
def addMonths (dt : CDate) (k : Int) : CDate :=
  monthFirst (monthIdx dt + k)

/-- The `while (date < toDate)` loop of the month-granularity branch,
fuelled to model the JS loop (which diverges for `breakpoint ≤ 0`). -/
def monthWalk (fuel : Nat) (date : CDate) (toS : Int) (breakpoint : Int)
    (weekDirection : String) (st : MRM) : List (CDate × CDate) × MRM :=
  match fuel with
  | 0 => ([], st)
  | fuel + 1 =>
    if toSerial date < toS then
      let st' := if weekDirection = "horizontal" ∧ st ≠ .val 6
                 then scanBlock date breakpoint st else st
      let next := addMonths date breakpoint
      let rest := monthWalk fuel next toS breakpoint weekDirection st'
      ((date, next) :: rest.1, rest.2)
    else ([], st)

/-- lodash `range(a, b)`. -/
def yearRange (a b : Int) : List Int :=
  (List.range (b - a).toNat).map (fun (k : Nat) => a + (k : Int))

/-- The `while (yearRange.length) { yearRange.splice(0, breakpoint) … }`
chunking of the year-granularity branch (`breakpoint ≤ 0` diverges in JS). -/
def yearChunks (fuel : Nat) (ys : List Int) (breakpoint : Int) : List (CDate × CDate) :=
  match fuel, ys with
  | 0, _ => []
  | _, [] => []
  | fuel + 1, y :: rest =>
    if breakpoint ≤ 0 then []
    else
      let arr := (y :: rest).take breakpoint.toNat
      (⟨y, 0, 1⟩, ⟨arr.getLastD 0 + 1, 0, 1⟩) ::
        yearChunks fuel ((y :: rest).drop breakpoint.toNat) breakpoint

/-- The date-partitioning phase of `computeLayout`: the list of block
`[start, end)` pairs and the `maxRowsMonth` state it leaves behind. -/
def computeBlocksAndRows (fromDate toDate : CDate) (granularity : String)
    (breakpoint : Int) (weekDirection : String) : List (CDate × CDate) × MRM :=
  if granularity = "year" then
    -- an year always has a month needing 6 partial weeks
    let mrm : MRM := if weekDirection = "horizontal" then MRM.val 6 else MRM.undef
    let yr := yearRange fromDate.y (toDate.y + 1)
    (yearChunks yr.length yr breakpoint, mrm)
  else
    -- the loop starts at the first of `from`'s month
    let date : CDate := ⟨fromDate.y, fromDate.m, 1⟩
    monthWalk ((toSerial toDate - toSerial date).toNat + 1) date (toSerial toDate)
      breakpoint weekDirection MRM.undef

/-- The configuration record consumed by `computeLayout`. -/
structure Config where
  width : ℚ
  height : ℚ
  fromDate : CDate
  toDate : CDate
  direction : String
  yearSpacing : ℚ
  monthSpacing : ℚ
  daySpacing : ℚ
  align : String
  weekDirection : String
  granularity : String
  breakpoint : Int

structure DayEntry where
  date : CDate
  day : String
  size : ℚ
  x : Option ℚ
  y : Option ℚ
  deriving DecidableEq, Repr

structure MonthEntry where
  date : CDate
  year : Int
  month : Int
  path : List PathCmd
  bbox : BBox
  deriving DecidableEq, Repr

/-- `year` holds the block's start date (`date[0]` in the source). -/
structure YearEntry where
  year : CDate
  bbox : BBox
  deriving DecidableEq, Repr

structure Layout where
  years : List YearEntry
  months : List MonthEntry
  days : List DayEntry
  cellSize : ℚ
  calendarWidth : ℚ
  calendarHeight : ℚ
  originX : ℚ
  originY : ℚ
  deriving DecidableEq, Repr

/-- The month descriptors of one block. -/
def blockMonths (cellSize : ℚ) (yearSpacing monthSpacing daySpacing : ℚ)
    (direction : String) (originX originY : ℚ) (i : Int) (s e : CDate) :
    List MonthEntry :=
  (timeMonths s e).map (fun monthDate =>
    let pb := monthPathAndBBox monthDate cellSize i yearSpacing monthSpacing daySpacing
      direction originX originY
    { date := monthDate, year := monthDate.y, month := monthDate.m,
      path := pb.path, bbox := pb.bbox })

/-- The year descriptor of one block: reads entries 0 and 11 of the block's
month list (`yearMonths[0]` / `yearMonths[11]` in the source); when the list
is shorter, reading `.bbox` off `undefined` throws. -/
def blockYear (yearMonths : List MonthEntry) (s : CDate) : Option YearEntry :=
  match yearMonths[0]?, yearMonths[11]? with
  | some m0, some m11 =>
    some { year := s,
           bbox := { x := m0.bbox.x, y := m0.bbox.y,
                     width := m11.bbox.x - m0.bbox.x + m11.bbox.width,
                     height := m11.bbox.y - m0.bbox.y + m11.bbox.height } }
  | _, _ => none

/-- `computeLayout`, parameterised by the external `alignBox` collaborator
(out of scope, `@nivo/core`) and by `startDateArg`, the value the
per-day call hands to the position closure's fifth parameter. -/
def computeLayoutCore (alignBox : BBox → BBox → String → ℚ × ℚ)
    (startDateArg : CDate → Option CDate) (cfg : Config) : Option Layout :=
  let bw := computeBlocksAndRows cfg.fromDate cfg.toDate cfg.granularity
    cfg.breakpoint cfg.weekDirection
  let dates := bw.1
  let monthsPerGroup : Int := if cfg.granularity = "year" then cfg.breakpoint * 12 else cfg.breakpoint
  let mrm : MRM := if cfg.weekDirection = "vertical" then .val 7 else bw.2
  match mrm with
  | .val maxRowsMonth =>
    match dates with
    | [] => none  -- Math.max over no blocks and division by zero: non-finite geometry
    | _ :: _ =>
      let maxColumnsGroup : Int :=
        if cfg.weekDirection = "vertical" then
          (dates.map (fun p => timeWeeksLen p.1 p.2)).foldl max 0 + 1
        else 7 * monthsPerGroup
      let cellSize := computeCellSize cfg.width cfg.height cfg.direction
        ((dates.length : Int) : ℚ) cfg.yearSpacing cfg.monthSpacing cfg.daySpacing
        (maxRowsMonth : ℚ) (maxColumnsGroup : ℚ) (monthsPerGroup : ℚ)
      let monthsSize := cellSize * (maxColumnsGroup : ℚ) + cfg.daySpacing * (maxColumnsGroup : ℚ) +
        cfg.monthSpacing * (monthsPerGroup : ℚ)
      let yearsSize := (cellSize + cfg.daySpacing) * (maxRowsMonth : ℚ) * ((dates.length : Int) : ℚ) +
        cfg.yearSpacing * (((dates.length : Int) : ℚ) - 1)
      let calendarWidth := if cfg.direction = "horizontal" then monthsSize else yearsSize
      let calendarHeight := if cfg.direction = "horizontal" then yearsSize else monthsSize
      let origin := alignBox ⟨0, 0, calendarWidth, calendarHeight⟩
        ⟨0, 0, cfg.width, cfg.height⟩ cfg.align
      let cellPosition :=
        if cfg.direction = "horizontal" then
          if cfg.weekDirection = "horizontal" then
            cellPositionHorizontalHorizontal cellSize cfg.yearSpacing cfg.monthSpacing
              cfg.daySpacing maxRowsMonth
          else
            cellPositionHorizontalVertical cellSize cfg.yearSpacing cfg.monthSpacing
              cfg.daySpacing maxRowsMonth
        else
          if cfg.weekDirection = "horizontal" then
            cellPositionVerticalHorizontal cellSize cfg.yearSpacing cfg.monthSpacing
              cfg.daySpacing maxRowsMonth
          else
            cellPositionVerticalVertical cellSize cfg.yearSpacing cfg.monthSpacing
              cfg.daySpacing maxRowsMonth
      -- the source calls `cellPosition(originX, originY, dayDate, i)` with
      -- only four of the closure's five parameters: `startDateArg` says what
      -- arrives as `startDate`
      let days : Option (List DayEntry) :=
        (dates.enum.mapM (fun p =>
          (timeDays p.2.1 p.2.2).mapM (fun dayDate =>
            (cellPosition origin.1 origin.2 dayDate (p.1 : Int) (startDateArg p.2.1)).map
              (fun xy => { date := dayDate, day := dayFormat dayDate, size := cellSize,
                           x := xy.1, y := xy.2 })))).map List.flatten
      let months : List MonthEntry :=
        (dates.enum.map (fun p =>
          blockMonths cellSize cfg.yearSpacing cfg.monthSpacing cfg.daySpacing
            cfg.direction origin.1 origin.2 (p.1 : Int) p.2.1 p.2.2)).flatten
      let years : Option (List YearEntry) :=
        dates.enum.mapM (fun p =>
          blockYear (blockMonths cellSize cfg.yearSpacing cfg.monthSpacing
            cfg.daySpacing cfg.direction origin.1 origin.2 (p.1 : Int) p.2.1 p.2.2) p.2.1)
      match days, years with
      | some ds, some ys =>
        some { years := ys, months := months, days := ds, cellSize := cellSize,
               calendarWidth := calendarWidth, calendarHeight := calendarHeight,
               originX := origin.1, originY := origin.2 }
      | _, _ => none
  | _ => none  -- undefined/NaN maxRowsMonth poisons every numeric output

/-- `computeLayout` as shipped: the day loop passes only four arguments to
the position closure, so `startDate` is `undefined`. -/
def computeLayout (alignBox : BBox → BBox → String → ℚ × ℚ) (cfg : Config) :
    Option Layout :=
  computeLayoutCore alignBox (fun _ => none) cfg

/-- `computeLayout` with the one-argument repair: the block's start date
(`date[0]`) is supplied for the closures' `startDate` parameter, the evident
intent of their signatures. -/
def computeLayoutS (alignBox : BBox → BBox → String → ℚ × ℚ) (cfg : Config) :
    Option Layout :=
  computeLayoutCore alignBox some cfg

/-! ### `bindDaysData` -/

/-- One record of the input dataset (`{day, value}`). -/
structure CalendarDatum where
  day : String
  value : ℚ
  deriving DecidableEq, Repr

/-- The fields of a day cell that `bindDaysData` reads or writes (the
geometric fields pass through untouched). -/
structure BoundDay where
  day : String
  color : String
  value : Option ℚ
  data : Option CalendarDatum
  deriving Repr

/-- `bindDaysData`: default every cell to `emptyColor`, then let every
matching datum overwrite value, color and data in input order. -/
def bindDaysData (days : List BoundDay) (data : List CalendarDatum)
    (colorScale : ℚ → String) (emptyColor : String) : List BoundDay :=
  days.map (fun day =>
    data.foldl (fun acc dayData =>
      if dayData.day = day.day then
        { acc with value := some dayData.value, color := colorScale dayData.value,
                   data := some dayData }
      else acc)
      { day with color := emptyColor })

/-! ### Legend positions -/

/-- Anchor `(x, y, rotation)` of a year legend. -/
def yearLegendPosition (bbox : BBox) (direction position : String) (offset : ℚ) :
    ℚ × ℚ × ℚ :=
  if direction = "horizontal" ∧ position = "before" then
    (bbox.x - offset, bbox.y + bbox.height / 2, -90)
  else if direction = "horizontal" ∧ position = "after" then
    (bbox.x + bbox.width + offset, bbox.y + bbox.height / 2, -90)
  else if direction = "vertical" ∧ position = "before" then
    (bbox.x + bbox.width / 2, bbox.y - offset, 0)
  else
    (bbox.x + bbox.width / 2, bbox.y + bbox.height + offset, 0)

/-- `computeYearLegendPositions`: each year entry with its `{x, y, rotation}`
anchor. -/
def computeYearLegendPositions (years : List YearEntry) (direction position : String)
    (offset : ℚ) : List (YearEntry × ℚ × ℚ × ℚ) :=
  years.map (fun year => (year, yearLegendPosition year.bbox direction position offset))

/-- Anchor `(x, y, rotation)` of a month legend. -/
def monthLegendPosition (bbox : BBox) (direction position : String) (offset : ℚ) :
    ℚ × ℚ × ℚ :=
  if direction = "horizontal" ∧ position = "before" then
    (bbox.x + bbox.width / 2, bbox.y - offset, 0)
  else if direction = "horizontal" ∧ position = "after" then
    (bbox.x + bbox.width / 2, bbox.y + bbox.height + offset, 0)
  else if direction = "vertical" ∧ position = "before" then
    (bbox.x - offset, bbox.y + bbox.height / 2, -90)
  else
    (bbox.x + bbox.width + offset, bbox.y + bbox.height / 2, -90)

/-- `computeMonthLegendPositions`. -/
def computeMonthLegendPositions (months : List MonthEntry) (direction position : String)
    (offset : ℚ) : List (MonthEntry × ℚ × ℚ × ℚ) :=
  months.map (fun month => (month, monthLegendPosition month.bbox direction position offset))

/-! ### Auxiliary specification-side definitions -/

/-- Union rectangle of a non-empty list of boxes
(min x/y to max x+width / y+height). -/
def bboxUnion : List BBox → BBox
  | [] => ⟨0, 0, 0, 0⟩
  | b :: rest =>
    rest.foldl (fun acc c =>
      { x := qmin acc.x c.x, y := qmin acc.y c.y,
        width := qmax (acc.x + acc.width) (c.x + c.width) - qmin acc.x c.x,
        height := qmax (acc.y + acc.height) (c.y + c.height) - qmin acc.y c.y }) b

/-- The `maxRowsMonth` scan as claim C7 words it: for each of the
`breakpoint` months of the first block compute
`daysInMonth + firstWeekdayOfMonth`; ≥ 37 yields 6 and stops, exactly 28
keeps 4 as a running maximum, anything else contributes 5.  Stated for
comparison with the source's `scanBlock`. -/
def specMaxRowsMonthScan (firstBlockStart : CDate) (breakpoint : Int) : Int :=
  (List.range breakpoint.toNat).foldl (fun (acc : Int) (i : Nat) =>
    if acc = 6 then acc
    else
      let mi := monthIdx firstBlockStart + (i : Int)
      let sum := daysInMonth (mi / 12) (mi % 12) + weekday (monthFirst mi)
      if sum ≥ 37 then 6
      else if sum = 28 then max acc 4
      else 5) 0

/-! ## Structural lemmas about the embedding -/

theorem monthWalk_block_shape (fuel : Nat) (date : CDate) (toS bp : Int)
    (wd : String) (st : MRM) :
    ∀ b ∈ (monthWalk fuel date toS bp wd st).1, b.2 = addMonths b.1 bp := by
  induction fuel generalizing date st with
  | zero => simp [monthWalk]
  | succ n ih =>
    intro b hb
    unfold monthWalk at hb
    by_cases hlt : toSerial date < toS
    · rw [if_pos hlt] at hb
      simp only [List.mem_cons] at hb
      rcases hb with rfl | hb
      · rfl
      · exact ih _ _ b hb
    · rw [if_neg hlt] at hb
      simp at hb

theorem monthWalk_ne_nil (fuel : Nat) (date : CDate) (toS bp : Int)
    (wd : String) (st : MRM) (hlt : toSerial date < toS) :
    (monthWalk (fuel + 1) date toS bp wd st).1 ≠ [] := by
  unfold monthWalk
  rw [if_pos hlt]
  simp

theorem timeMonths_addMonths_len (s : CDate) (k : Int) :
    (timeMonths s (addMonths s k)).length = k.toNat := by
  unfold timeMonths addMonths
  rw [monthIdx_monthFirst]
  rw [List.length_map, List.length_range]
  omega

theorem blockMonths_len (cellSize yearSpacing monthSpacing daySpacing : ℚ)
    (direction : String) (originX originY : ℚ) (i : Int) (s e : CDate) :
    (blockMonths cellSize yearSpacing monthSpacing daySpacing direction
      originX originY i s e).length = (timeMonths s e).length := by
  unfold blockMonths
  simp

theorem blockYear_none_of_short (yearMonths : List MonthEntry) (s : CDate)
    (h : yearMonths.length ≤ 11) : blockYear yearMonths s = none := by
  have h11 : yearMonths[11]? = none := by
    rw [List.getElem?_eq_none]
    omega
  unfold blockYear
  rw [h11]
  cases yearMonths[0]? <;> rfl

theorem blockYear_some_len (ms : List MonthEntry) (s : CDate) (y : YearEntry)
    (h : blockYear ms s = some y) : 12 ≤ ms.length := by
  by_contra hlt
  rw [blockYear_none_of_short ms s (by omega)] at h
  exact absurd h (by simp)

theorem mapM_some_forall {α β : Type} (f : α → Option β) (l : List α) (r : List β)
    (h : l.mapM f = some r) : ∀ a ∈ l, ∃ y, f a = some y := by
  induction l generalizing r with
  | nil => simp
  | cons x xs ih =>
    rw [List.mapM_cons] at h
    intro a ha
    cases hfx : f x with
    | none => rw [hfx] at h; simp at h
    | some y =>
      rcases List.mem_cons.mp ha with rfl | ha
      · exact ⟨y, hfx⟩
      · cases hxs : xs.mapM f with
        | none => rw [hfx, hxs] at h; simp at h
        | some ys => exact ih ys hxs a ha

theorem le_foldl_max (l : List Int) (a : Int) : a ≤ l.foldl max a := by
  induction l generalizing a with
  | nil => simp
  | cons x xs ih =>
    simp only [List.foldl_cons]
    exact le_trans (le_max_left a x) (ih (max a x))

theorem jsMaxWith4_inv (st : MRM) (h : ∀ k, st = .val k → 4 ≤ k ∧ k ≤ 6) :
    ∀ k, jsMaxWith4 st = .val k → 4 ≤ k ∧ k ≤ 6 := by
  intro k hk
  cases st with
  | undef => simp [jsMaxWith4] at hk
  | nan => simp [jsMaxWith4] at hk
  | val n =>
    simp only [jsMaxWith4, MRM.val.injEq] at hk
    have := h n rfl
    omega

theorem scanStep_inv (date : CDate) (st : MRM) (i : Int)
    (h : ∀ k, st = .val k → 4 ≤ k ∧ k ≤ 6) :
    ∀ k, scanStep date st i = .val k → 4 ≤ k ∧ k ≤ 6 := by
  intro k hk
  unfold scanStep at hk
  split_ifs at hk with h1 h2 h3
  · exact h k hk
  · simp only [MRM.val.injEq] at hk
    omega
  · exact jsMaxWith4_inv st h k hk
  · simp only [MRM.val.injEq] at hk
    omega

theorem scanBlock_inv (date : CDate) (bp : Int) (st : MRM)
    (h : ∀ k, st = .val k → 4 ≤ k ∧ k ≤ 6) :
    ∀ k, scanBlock date bp st = .val k → 4 ≤ k ∧ k ≤ 6 := by
  unfold scanBlock
  generalize List.range bp.toNat = l
  induction l generalizing st with
  | nil => exact h
  | cons x xs ih =>
    simp only [List.foldl_cons]
    exact ih _ (scanStep_inv date st (x : Int) h)

theorem monthWalk_rows_inv (fuel : Nat) (date : CDate) (toS bp : Int)
    (wd : String) (st : MRM) (h : ∀ k, st = .val k → 4 ≤ k ∧ k ≤ 6) :
    ∀ k, (monthWalk fuel date toS bp wd st).2 = .val k → 4 ≤ k ∧ k ≤ 6 := by
  induction fuel generalizing date st with
  | zero => exact h
  | succ n ih =>
    unfold monthWalk
    by_cases hlt : toSerial date < toS
    · rw [if_pos hlt]
      simp only
      split_ifs with hs
      · exact ih _ _ (scanBlock_inv date bp st h)
      · exact ih _ _ h
    · rw [if_neg hlt]
      exact h

theorem blocksRows_inv (f t : CDate) (g : String) (bp : Int) (wd : String) :
    ∀ k, (computeBlocksAndRows f t g bp wd).2 = .val k → 4 ≤ k ∧ k ≤ 6 := by
  unfold computeBlocksAndRows
  split_ifs with hg hw
  · intro k hk
    simp only [MRM.val.injEq] at hk
    omega
  · intro k hk
    simp at hk
  · exact monthWalk_rows_inv _ _ _ _ _ _ (by intro k hk; simp at hk)

/-- The two per-axis constraints of `computeCellSize` really are satisfied
by its result: the min of the two candidates fits both axes (exact
arithmetic, positive structural counts). -/
theorem computeCellSize_fit (width height : ℚ) (direction : String)
    (blocks ys ms ds mr mcg mpg : ℚ)
    (hb : 1 ≤ blocks) (hr : 1 ≤ mr) (hc : 1 ≤ mcg) :
    ((if direction = "horizontal" then
        computeCellSize width height direction blocks ys ms ds mr mcg mpg * mcg +
          ds * mcg + ms * mpg
      else
        (computeCellSize width height direction blocks ys ms ds mr mcg mpg + ds) *
          mr * blocks + ys * (blocks - 1)) ≤ width) ∧
    ((if direction = "horizontal" then
        (computeCellSize width height direction blocks ys ms ds mr mcg mpg + ds) *
          mr * blocks + ys * (blocks - 1)
      else
        computeCellSize width height direction blocks ys ms ds mr mcg mpg * mcg +
          ds * mcg + ms * mpg) ≤ height) := by
  have hmcg : (0 : ℚ) < mcg := by linarith
  have hbm : (0 : ℚ) < blocks * mr := by nlinarith
  by_cases hdir : direction = "horizontal"
  · simp only [computeCellSize, if_pos hdir]
    set hC := (width - ms * mpg - ds * mcg) / mcg with hhC
    set vC := (height - (blocks - 1) * ys - blocks * (mr * ds)) / (blocks * mr) with hvC
    have h1 : qmin hC vC ≤ hC := qmin_le_left hC vC
    have h2 : qmin hC vC ≤ vC := qmin_le_right hC vC
    constructor
    · have : qmin hC vC * mcg ≤ hC * mcg :=
        mul_le_mul_of_nonneg_right h1 (le_of_lt hmcg)
      rw [hhC, div_mul_cancel₀ _ (ne_of_gt hmcg)] at this
      linarith
    · have : qmin hC vC * (blocks * mr) ≤ vC * (blocks * mr) :=
        mul_le_mul_of_nonneg_right h2 (le_of_lt hbm)
      rw [hvC, div_mul_cancel₀ _ (ne_of_gt hbm)] at this
      nlinarith [this]
  · simp only [computeCellSize, if_neg hdir]
    set hC := (width - (blocks - 1) * ys - blocks * (mr * ds)) / (blocks * mr) with hhC
    set vC := (height - ms * mpg - ds * mcg) / mcg with hvC
    have h1 : qmin hC vC ≤ hC := qmin_le_left hC vC
    have h2 : qmin hC vC ≤ vC := qmin_le_right hC vC
    constructor
    · have : qmin hC vC * (blocks * mr) ≤ hC * (blocks * mr) :=
        mul_le_mul_of_nonneg_right h1 (le_of_lt hbm)
      rw [hhC, div_mul_cancel₀ _ (ne_of_gt hbm)] at this
      nlinarith [this]
    · have : qmin hC vC * mcg ≤ vC * mcg :=
        mul_le_mul_of_nonneg_right h2 (le_of_lt hmcg)
      rw [hvC, div_mul_cancel₀ _ (ne_of_gt hmcg)] at this
      linarith

/-! ## Day-coverage infrastructure (claim C1)

The blocks produced by either granularity branch form a chain: each block
starts where the previous one ends.  Together with the per-block day
enumeration this yields global strict ordering and key uniqueness. -/

theorem intRange_pairwise (s : Int) (n : Nat) :
    List.Pairwise (fun a b => a < b) (intRange s n) := by
  induction n generalizing s with
  | zero => simp [intRange]
  | succ k ih =>
    simp only [intRange, List.pairwise_cons]
    refine ⟨fun x hx => ?_, ih (s + 1)⟩
    rw [intRange_mem] at hx
    omega

theorem intRange_length (s : Int) (n : Nat) : (intRange s n).length = n := by
  induction n generalizing s with
  | zero => rfl
  | succ k ih => simp [intRange, ih]

theorem intRange_eq_range_map (s : Int) (n : Nat) :
    intRange s n = (List.range n).map (fun (k : Nat) => s + (k : Int)) := by
  induction n generalizing s with
  | zero => rfl
  | succ k ih =>
    rw [List.range_succ_eq_map, intRange, ih (s + 1), List.map_cons, List.map_map]
    congr 1
    · simp
    · refine List.map_congr_left (fun a _ => ?_)
      simp only [Function.comp_apply, Nat.succ_eq_add_one]
      push_cast
      ring

theorem yearRange_eq_intRange (a b : Int) :
    yearRange a b = intRange a (b - a).toNat := by
  rw [yearRange, intRange_eq_range_map]

theorem intRange_take (s : Int) (n k : Nat) :
    (intRange s n).take k = intRange s (min k n) := by
  induction n generalizing s k with
  | zero => simp [intRange]
  | succ m ih =>
    cases k with
    | zero => simp [intRange]
    | succ j =>
      simp only [intRange, List.take_succ_cons, ih (s + 1) j]
      have : min (j + 1) (m + 1) = min j m + 1 := by omega
      rw [this]
      rfl

theorem intRange_drop (s : Int) (n k : Nat) :
    (intRange s n).drop k = intRange (s + k) (n - k) := by
  induction n generalizing s k with
  | zero => simp [intRange]
  | succ m ih =>
    cases k with
    | zero => simp [intRange]
    | succ j =>
      simp only [intRange, List.drop_succ_cons, ih (s + 1) j]
      congr 1
      · push_cast
        ring
      · omega

theorem intRange_getLastD (s : Int) (n : Nat) (hn : 1 ≤ n) (d : Int) :
    (intRange s n).getLastD d = s + n - 1 := by
  induction n generalizing s d with
  | zero => omega
  | succ m ih =>
    cases m with
    | zero =>
      show ([s] : List Int).getLastD d = s + ((1 : Nat) : Int) - 1
      simp
    | succ j =>
      show (s :: intRange (s + 1) (j + 1)).getLastD d = _
      rw [List.getLastD_cons, ih (s + 1) (by omega) s]
      push_cast
      ring

/-- Each block starts exactly where the previous one ends. -/
def ChainedFrom : CDate → List (CDate × CDate) → Prop
  | _, [] => True
  | c, b :: bs => b.1 = c ∧ ChainedFrom b.2 bs

theorem forall2_of_mapM {α β : Type} (f : α → Option β) (l : List α) (r : List β)
    (h : l.mapM f = some r) : List.Forall₂ (fun a b => f a = some b) l r := by
  induction l generalizing r with
  | nil =>
    simp only [List.mapM_nil, pure, Option.some.injEq] at h
    rw [← h]
    exact List.Forall₂.nil
  | cons x xs ih =>
    rw [List.mapM_cons] at h
    cases hfx : f x with
    | none => rw [hfx] at h; simp at h
    | some y =>
      cases hxs : xs.mapM f with
      | none => rw [hfx, hxs] at h; simp at h
      | some ys =>
        rw [hfx, hxs] at h
        have h2 : some (y :: ys) = some r := h
        rw [Option.some.injEq] at h2
        rw [← h2]
        exact List.Forall₂.cons hfx (ih ys hxs)

theorem forall2_map_eq {α β γ : Type} (g : β → γ) (f : α → γ)
    (l : List α) (r : List β)
    (h : List.Forall₂ (fun a b => g b = f a) l r) : r.map g = l.map f := by
  induction h with
  | nil => rfl
  | cons hab _ ih => simp [ih, hab]

theorem forall2_mem_right {α β : Type} (p : β → Prop) (l : List α) (r : List β)
    (h : List.Forall₂ (fun _ b => p b) l r) : ∀ b ∈ r, p b := by
  induction h with
  | nil => simp
  | cons hab _ ih =>
    intro b hb
    rcases List.mem_cons.mp hb with rfl | hb
    · exact hab
    · exact ih b hb

theorem jan1_valid (y : Int) (h : 1 ≤ y) : (⟨y, 0, 1⟩ : CDate).Valid := by
  refine ⟨h, le_refl 0, by norm_num, le_refl 1, ?_⟩
  show (1 : Int) ≤ daysInMonth y 0
  norm_num [daysInMonth]

theorem monthFirst_monthIdx_self (dt : CDate) (h1 : 1 ≤ dt.y) (h2 : 0 ≤ dt.m)
    (h3 : dt.m ≤ 11) (hd : dt.d = 1) : monthFirst (monthIdx dt) = dt := by
  obtain ⟨y, m, d⟩ := dt
  simp only at h1 h2 h3 hd
  subst hd
  show (⟨(12 * y + m) / 12, (12 * y + m) % 12, 1⟩ : CDate) = ⟨y, m, 1⟩
  simp only [CDate.mk.injEq, and_true]
  exact ⟨by omega, by omega⟩

/-- Every block of the month walk starts where the previous one ends. -/
theorem monthWalk_chained (fuel : Nat) (toS bp : Int) (wd : String) :
    ∀ (date : CDate) (st : MRM),
      ChainedFrom date (monthWalk fuel date toS bp wd st).1 := by
  induction fuel with
  | zero => intro date st; trivial
  | succ n ih =>
    intro date st
    unfold monthWalk
    by_cases hlt : toSerial date < toS
    · rw [if_pos hlt]
      show ChainedFrom date ((date, addMonths date bp) ::
        (monthWalk n (addMonths date bp) toS bp wd
          (if wd = "horizontal" ∧ st ≠ MRM.val 6 then scanBlock date bp st
           else st)).1)
      exact ⟨rfl, ih _ _⟩
    · rw [if_neg hlt]
      trivial

/-- Starting from a month-first date the month walk only produces blocks
with a valid month-first start that does not exceed the block's end. -/
theorem monthWalk_starts (fuel : Nat) (toS bp : Int) (wd : String)
    (hbp : 1 ≤ bp) :
    ∀ (date : CDate) (st : MRM), date = monthFirst (monthIdx date) →
      12 ≤ monthIdx date →
      ∀ b ∈ (monthWalk fuel date toS bp wd st).1,
        b.1.Valid ∧ toSerial b.1 ≤ toSerial b.2 := by
  induction fuel with
  | zero => intro date st _ _; simp [monthWalk]
  | succ n ih =>
    intro date st hd hi b hb
    unfold monthWalk at hb
    by_cases hlt : toSerial date < toS
    · rw [if_pos hlt] at hb
      simp only [List.mem_cons] at hb
      rcases hb with rfl | hb
      · constructor
        · show date.Valid
          rw [hd]
          exact monthFirst_valid _ hi
        · have hmono := serial_monthFirst_mono (monthIdx date)
            (monthIdx date + bp) (by omega)
          have hds : toSerial date = toSerial (monthFirst (monthIdx date)) := by
            rw [← hd]
          show toSerial date ≤ toSerial (addMonths date bp)
          unfold addMonths
          omega
      · have hd' : addMonths date bp = monthFirst (monthIdx (addMonths date bp)) := by
          unfold addMonths
          rw [monthIdx_monthFirst]
        have hi' : 12 ≤ monthIdx (addMonths date bp) := by
          unfold addMonths
          rw [monthIdx_monthFirst]
          omega
        exact ih _ _ hd' hi' b hb
    · rw [if_neg hlt] at hb
      simp at hb

theorem yearChunks_nil (fuel : Nat) (bp : Int) : yearChunks fuel [] bp = [] := by
  cases fuel <;> rfl

/-- The year-granularity chunking of a consecutive run of years produces
chained blocks of strictly increasing January firsts. -/
theorem yearChunks_struct (bp : Int) (hbp : 1 ≤ bp) :
    ∀ (fuel : Nat) (a : Int) (n : Nat), n ≤ fuel →
      ChainedFrom ⟨a, 0, 1⟩ (yearChunks fuel (intRange a n) bp) ∧
      ∀ b ∈ yearChunks fuel (intRange a n) bp,
        ∃ y y', b = ((⟨y, 0, 1⟩ : CDate), (⟨y', 0, 1⟩ : CDate)) ∧ a ≤ y ∧ y < y' := by
  intro fuel
  induction fuel with
  | zero =>
    intro a n hn
    have h0 : n = 0 := by omega
    subst h0
    exact ⟨trivial, by simp [intRange, yearChunks]⟩
  | succ f ih =>
    intro a n hn
    cases n with
    | zero => exact ⟨trivial, by simp [intRange, yearChunks_nil]⟩
    | succ m =>
      have hcons : intRange a (m + 1) = a :: intRange (a + 1) m := rfl
      have hstep0 : yearChunks (f + 1) (a :: intRange (a + 1) m) bp =
          ((⟨a, 0, 1⟩ : CDate),
            (⟨((a :: intRange (a + 1) m).take bp.toNat).getLastD 0 + 1, 0,
              1⟩ : CDate)) ::
            yearChunks f ((a :: intRange (a + 1) m).drop bp.toNat) bp := by
        simp only [yearChunks]
        rw [if_neg (by omega)]
      have hstep : yearChunks (f + 1) (intRange a (m + 1)) bp =
          (((⟨a, 0, 1⟩ : CDate),
            (⟨(intRange a (min bp.toNat (m + 1))).getLastD 0 + 1, 0, 1⟩ : CDate))) ::
            yearChunks f (intRange (a + bp.toNat) (m + 1 - bp.toNat)) bp := by
        rw [hcons, hstep0, ← hcons, intRange_take, intRange_drop]
      have hlast : (intRange a (min bp.toNat (m + 1))).getLastD 0 + 1 =
          a + ((min bp.toNat (m + 1) : Nat) : Int) := by
        rw [intRange_getLastD a _ (by omega) 0]
        ring
      rw [hstep, hlast]
      constructor
      · refine ⟨rfl, ?_⟩
        by_cases hcase : bp.toNat ≤ m
        · have hmin : min bp.toNat (m + 1) = bp.toNat := by omega
          rw [hmin]
          exact (ih (a + bp.toNat) (m + 1 - bp.toNat) (by omega)).1
        · have hz : m + 1 - bp.toNat = 0 := by omega
          rw [hz]
          show ChainedFrom _ (yearChunks f [] bp)
          rw [yearChunks_nil]
          trivial
      · intro b hb
        rcases List.mem_cons.mp hb with rfl | hb
        · exact ⟨a, a + ((min bp.toNat (m + 1) : Nat) : Int), rfl, le_refl a,
            by omega⟩
        · obtain ⟨y, y', hb', hay, hyy⟩ :=
            (ih (a + bp.toNat) (m + 1 - bp.toNat) (by omega)).2 b hb
          exact ⟨y, y', hb', by omega, hyy⟩

/-- Over a chain of blocks each of whose starts is valid and not past its
end, the concatenated per-block day enumerations have strictly increasing
serial numbers, all at least the chain origin's serial. -/
theorem chained_days_sorted (bs : List (CDate × CDate)) :
    ∀ c : CDate, ChainedFrom c bs →
      (∀ b ∈ bs, b.1.Valid) → (∀ b ∈ bs, toSerial b.1 ≤ toSerial b.2) →
      List.Pairwise (fun s t => s < t)
        (((bs.map (fun b => timeDays b.1 b.2)).flatten).map toSerial) ∧
      ∀ s ∈ ((bs.map (fun b => timeDays b.1 b.2)).flatten).map toSerial,
        toSerial c ≤ s := by
  induction bs with
  | nil => intro c _ _ _; simp
  | cons b bs ih =>
    intro c hch hv hle
    obtain ⟨hb1, hchrest⟩ := hch
    have hbv : b.1.Valid := hv b (List.mem_cons_self _ _)
    have hble : toSerial b.1 ≤ toSerial b.2 := hle b (List.mem_cons_self _ _)
    obtain ⟨ihp, ihb⟩ := ih b.2 hchrest
      (fun x hx => hv x (List.mem_cons_of_mem _ hx))
      (fun x hx => hle x (List.mem_cons_of_mem _ hx))
    have hhead : (timeDays b.1 b.2).map toSerial =
        intRange (toSerial b.1) (toSerial b.2 - toSerial b.1).toNat :=
      dayIter_map_serial b.1 _ hbv
    simp only [List.map_cons, List.flatten_cons, List.map_append]
    rw [List.pairwise_append]
    refine ⟨⟨?_, ihp, ?_⟩, ?_⟩
    · rw [hhead]
      exact intRange_pairwise _ _
    · intro s hs t ht
      rw [hhead, intRange_mem] at hs
      have := ihb t ht
      omega
    · intro s hs
      rcases List.mem_append.mp hs with hs | hs
      · rw [hhead, intRange_mem] at hs
        rw [hb1] at hs  -- hmm: hs is about toSerial b.1; we need toSerial c ≤ s
        omega
      · have := ihb s hs
        rw [← hb1]
        omega

/-- Whatever the position closure returns, a successful traversal of one
block's day list yields entries whose `date` fields are exactly the
traversed days, each carrying its own formatted key. -/
theorem innerBlock_facts (q : CDate → Option (Option ℚ × Option ℚ))
    (cs : ℚ) (l : List CDate) (bl : List DayEntry)
    (h : l.mapM (fun dayDate =>
        (q dayDate).map
          (fun xy => ({ date := dayDate, day := dayFormat dayDate, size := cs,
                        x := xy.1, y := xy.2 } : DayEntry))) = some bl) :
    bl.map (fun x => x.date) = l ∧ ∀ x ∈ bl, x.day = dayFormat x.date := by
  have h2 := forall2_of_mapM _ _ _ h
  have h3 : List.Forall₂ (fun a b => b.date = a ∧ b.day = dayFormat b.date)
      l bl := by
    refine h2.imp (fun a b hab => ?_)
    rcases Option.map_eq_some'.mp hab with ⟨xy, _, hb⟩
    rw [← hb]
    exact ⟨rfl, rfl⟩
  constructor
  · have h4 : List.Forall₂ (fun a b => (fun x => x.date) b = id a) l bl :=
      h3.imp (fun a b hab => hab.1)
    have h5 := forall2_map_eq (fun x => x.date) id l bl h4
    rw [List.map_id] at h5
    exact h5
  · exact forall2_mem_right _ _ _ (h3.imp (fun a b hab => hab.2))

/-- Both granularity branches produce a chain of valid, forward blocks. -/
theorem computeBlocksAndRows_struct (cfg : Config) (hv : cfg.fromDate.Valid)
    (hbp : 1 ≤ cfg.breakpoint) :
    ∃ c : CDate,
      ChainedFrom c (computeBlocksAndRows cfg.fromDate cfg.toDate
        cfg.granularity cfg.breakpoint cfg.weekDirection).1 ∧
      (∀ b ∈ (computeBlocksAndRows cfg.fromDate cfg.toDate cfg.granularity
        cfg.breakpoint cfg.weekDirection).1, b.1.Valid) ∧
      (∀ b ∈ (computeBlocksAndRows cfg.fromDate cfg.toDate cfg.granularity
        cfg.breakpoint cfg.weekDirection).1, toSerial b.1 ≤ toSerial b.2) := by
  obtain ⟨hy, hm0, hm1, hd1, hd2⟩ := hv
  by_cases hg : cfg.granularity = "year"
  · have hbeq : (computeBlocksAndRows cfg.fromDate cfg.toDate cfg.granularity
        cfg.breakpoint cfg.weekDirection).1 =
        yearChunks
          (intRange cfg.fromDate.y
            ((cfg.toDate.y + 1) - cfg.fromDate.y).toNat).length
          (intRange cfg.fromDate.y
            ((cfg.toDate.y + 1) - cfg.fromDate.y).toNat)
          cfg.breakpoint := by
      simp only [computeBlocksAndRows, if_pos hg, yearRange_eq_intRange]
    obtain ⟨hch, hshape⟩ := yearChunks_struct cfg.breakpoint hbp
      (intRange cfg.fromDate.y
        ((cfg.toDate.y + 1) - cfg.fromDate.y).toNat).length
      cfg.fromDate.y ((cfg.toDate.y + 1) - cfg.fromDate.y).toNat
      (by rw [intRange_length])
    refine ⟨⟨cfg.fromDate.y, 0, 1⟩, ?_, ?_, ?_⟩
    · rw [hbeq]
      exact hch
    · intro b hb
      rw [hbeq] at hb
      obtain ⟨y, y', hb', hay, hyy⟩ := hshape b hb
      rw [hb']
      show (⟨y, 0, 1⟩ : CDate).Valid
      exact jan1_valid y (by omega)
    · intro b hb
      rw [hbeq] at hb
      obtain ⟨y, y', hb', hay, hyy⟩ := hshape b hb
      rw [hb']
      show toSerial ⟨y, 0, 1⟩ ≤ toSerial ⟨y', 0, 1⟩
      exact le_of_lt (toSerial_lt_of_year_lt _ _ (jan1_valid y (by omega))
        (jan1_valid y' (by omega)) hyy)
  · have hbeq : (computeBlocksAndRows cfg.fromDate cfg.toDate cfg.granularity
        cfg.breakpoint cfg.weekDirection).1 =
        (monthWalk
          ((toSerial cfg.toDate -
            toSerial ⟨cfg.fromDate.y, cfg.fromDate.m, 1⟩).toNat + 1)
          ⟨cfg.fromDate.y, cfg.fromDate.m, 1⟩ (toSerial cfg.toDate)
          cfg.breakpoint cfg.weekDirection MRM.undef).1 := by
      simp only [computeBlocksAndRows, if_neg hg]
    have hd : (⟨cfg.fromDate.y, cfg.fromDate.m, 1⟩ : CDate) =
        monthFirst (monthIdx ⟨cfg.fromDate.y, cfg.fromDate.m, 1⟩) :=
      (monthFirst_monthIdx_self ⟨cfg.fromDate.y, cfg.fromDate.m, 1⟩
        hy hm0 hm1 rfl).symm
    have hi : 12 ≤ monthIdx ⟨cfg.fromDate.y, cfg.fromDate.m, 1⟩ := by
      show 12 ≤ 12 * cfg.fromDate.y + cfg.fromDate.m
      omega
    refine ⟨⟨cfg.fromDate.y, cfg.fromDate.m, 1⟩, ?_, ?_, ?_⟩
    · rw [hbeq]
      exact monthWalk_chained _ _ _ _ _ _
    · intro b hb
      rw [hbeq] at hb
      exact (monthWalk_starts _ _ _ _ hbp _ _ hd hi b hb).1
    · intro b hb
      rw [hbeq] at hb
      exact (monthWalk_starts _ _ _ _ hbp _ _ hd hi b hb).2

/-! ## Day-cell geometry infrastructure (claim C3) -/

theorem mapM_eq_map {α β : Type} (f : α → Option β) (g : α → β) (l : List α)
    (hf : ∀ a ∈ l, f a = some (g a)) : l.mapM f = some (l.map g) := by
  induction l with
  | nil => rfl
  | cons x xs ih =>
    rw [List.mapM_cons, hf x (List.mem_cons_self _ _),
      ih (fun a ha => hf a (List.mem_cons_of_mem _ ha))]
    rfl

theorem forall2_exists_left {α β : Type} (r : α → β → Prop) (l : List α)
    (rr : List β) (h : List.Forall₂ r l rr) : ∀ b ∈ rr, ∃ a ∈ l, r a b := by
  induction h with
  | nil => simp
  | cons hab htail ih =>
    intro b hb
    rcases List.mem_cons.mp hb with rfl | hb
    · exact ⟨_, List.mem_cons_self _ _, hab⟩
    · obtain ⟨a, ha, hr⟩ := ih b hb
      exact ⟨a, List.mem_cons_of_mem _ ha, hr⟩

/-- With breakpoint 1 the year chunking is one block per year. -/
theorem yearChunks_one :
    ∀ (fuel : Nat) (a : Int) (n : Nat), n ≤ fuel →
      yearChunks fuel (intRange a n) 1 =
        (intRange a n).map
          (fun y => ((⟨y, 0, 1⟩ : CDate), (⟨y + 1, 0, 1⟩ : CDate))) := by
  intro fuel
  induction fuel with
  | zero =>
    intro a n hn
    have h0 : n = 0 := by omega
    subst h0
    rfl
  | succ f ih =>
    intro a n hn
    cases n with
    | zero => rfl
    | succ m =>
      show (((⟨a, 0, 1⟩ : CDate), (⟨a + 1, 0, 1⟩ : CDate)) ::
          yearChunks f (intRange (a + 1) m) 1) =
        ((⟨a, 0, 1⟩ : CDate), (⟨a + 1, 0, 1⟩ : CDate)) ::
          (intRange (a + 1) m).map
            (fun y => ((⟨y, 0, 1⟩ : CDate), (⟨y + 1, 0, 1⟩ : CDate)))
      rw [ih (a + 1) m (by omega)]

theorem toSerial_day_le (y m a b : Int) (h : a ≤ b) :
    toSerial ⟨y, m, a⟩ ≤ toSerial ⟨y, m, b⟩ := by
  show serial y m a ≤ serial y m b
  unfold serial
  omega

theorem weekday_bounds (dt : CDate) : 0 ≤ weekday dt ∧ weekday dt ≤ 6 := by
  unfold weekday
  omega

theorem getElapsedMonths_jan1 (d : CDate) :
    getElapsedMonths ⟨d.y, 0, 1⟩ d = d.m := by
  show d.m - (0 : Int) + 12 * (d.y - d.y) = d.m
  ring

/-- The month descriptor a block builds for one of its month firsts. -/
theorem blockMonths_mem (cs2 ys2 ms2 dsp2 : ℚ) (dir : String) (o1 o2 : ℚ)
    (i : Int) (s e : CDate) (md : CDate) (hmd : md ∈ timeMonths s e) :
    ({ date := md, year := md.y, month := md.m,
       path := (monthPathAndBBox md cs2 i ys2 ms2 dsp2 dir o1 o2).path,
       bbox := (monthPathAndBBox md cs2 i ys2 ms2 dsp2 dir o1 o2).bbox } :
      MonthEntry) ∈ blockMonths cs2 ys2 ms2 dsp2 dir o1 o2 i s e := by
  unfold blockMonths
  exact List.mem_map_of_mem _ hmd

/-- The geometric heart of the containment claim in the
horizontal-direction, vertical-weeks branch: the day cell computed by
`getD`/`getC` (with the repaired `startDate` = January 1st of the day's
year) lies inside the bbox of the day's month at the same block index. -/
theorem hv_cell_in_bbox (cs dsp ys ms o1 o2 : ℚ) (i : Int) (d : CDate)
    (hd : d.Valid) (hcs : 0 ≤ cs) (hdsp : 0 ≤ dsp) :
    ((monthPathAndBBox ⟨d.y, d.m, 1⟩ cs i ys ms dsp "horizontal" o1 o2).bbox.x ≤
        o1 + getD d ⟨d.y, 0, 1⟩ ms dsp cs) ∧
    (o1 + getD d ⟨d.y, 0, 1⟩ ms dsp cs + cs ≤
      (monthPathAndBBox ⟨d.y, d.m, 1⟩ cs i ys ms dsp "horizontal" o1 o2).bbox.x +
      (monthPathAndBBox ⟨d.y, d.m, 1⟩ cs i ys ms dsp "horizontal" o1 o2).bbox.width) ∧
    ((monthPathAndBBox ⟨d.y, d.m, 1⟩ cs i ys ms dsp "horizontal" o1 o2).bbox.y ≤
        o2 + getC d i ys dsp 7 cs) ∧
    (o2 + getC d i ys dsp 7 cs + cs ≤
      (monthPathAndBBox ⟨d.y, d.m, 1⟩ cs i ys ms dsp "horizontal" o1 o2).bbox.y +
      (monthPathAndBBox ⟨d.y, d.m, 1⟩ cs i ys ms dsp "horizontal" o1 o2).bbox.height) := by
  obtain ⟨hy1, hm0, hm1, hd1, hd2⟩ := hd
  have hbx : (monthPathAndBBox ⟨d.y, d.m, 1⟩ cs i ys ms dsp
      "horizontal" o1 o2).bbox.x =
      (o1 + (d.m : ℚ) * ms) +
        ((weekCount ⟨d.y, 0, 1⟩ ⟨d.y, d.m, 1⟩ : Int) : ℚ) * (cs + dsp) := rfl
  have hbw : (monthPathAndBBox ⟨d.y, d.m, 1⟩ cs i ys ms dsp
      "horizontal" o1 o2).bbox.width =
      (o1 + (d.m : ℚ) * ms) +
        (((weekCount ⟨d.y, 0, 1⟩ ⟨d.y, d.m, daysInMonth d.y d.m⟩ : Int) : ℚ) + 1) *
          (cs + dsp) -
        ((o1 + (d.m : ℚ) * ms) +
          ((weekCount ⟨d.y, 0, 1⟩ ⟨d.y, d.m, 1⟩ : Int) : ℚ) * (cs + dsp)) := rfl
  have hby : (monthPathAndBBox ⟨d.y, d.m, 1⟩ cs i ys ms dsp
      "horizontal" o1 o2).bbox.y =
      o2 + (i : ℚ) * (7 * (cs + dsp) + ys) := rfl
  have hbh : (monthPathAndBBox ⟨d.y, d.m, 1⟩ cs i ys ms dsp
      "horizontal" o1 o2).bbox.height = 7 * (cs + dsp) := rfl
  have hgd : getD d ⟨d.y, 0, 1⟩ ms dsp cs =
      ((weekCount ⟨d.y, 0, 1⟩ d : Int) : ℚ) * (cs + dsp) + dsp / 2 +
        ((getElapsedMonths ⟨d.y, 0, 1⟩ d : Int) : ℚ) * ms := rfl
  have hgc : getC d i ys dsp 7 cs =
      ((weekday d : Int) : ℚ) * (cs + dsp) + dsp / 2 +
        (i : ℚ) * (ys + ((7 : Int) : ℚ) * (cs + dsp)) := rfl
  rw [hbx, hbw, hby, hbh, hgd, hgc, getElapsedMonths_jan1]
  have hfw : weekCount ⟨d.y, 0, 1⟩ ⟨d.y, d.m, 1⟩ ≤ weekCount ⟨d.y, 0, 1⟩ d := by
    apply weekCount_mono
    exact toSerial_day_le d.y d.m 1 d.d hd1
  have hlw : weekCount ⟨d.y, 0, 1⟩ d ≤
      weekCount ⟨d.y, 0, 1⟩ ⟨d.y, d.m, daysInMonth d.y d.m⟩ := by
    apply weekCount_mono
    exact toSerial_day_le d.y d.m d.d (daysInMonth d.y d.m) hd2
  have hwb := weekday_bounds d
  have hfwQ : ((weekCount ⟨d.y, 0, 1⟩ ⟨d.y, d.m, 1⟩ : Int) : ℚ) ≤
      ((weekCount ⟨d.y, 0, 1⟩ d : Int) : ℚ) := by exact_mod_cast hfw
  have hlwQ : ((weekCount ⟨d.y, 0, 1⟩ d : Int) : ℚ) ≤
      ((weekCount ⟨d.y, 0, 1⟩ ⟨d.y, d.m, daysInMonth d.y d.m⟩ : Int) : ℚ) := by
    exact_mod_cast hlw
  have hwdQ0 : (0 : ℚ) ≤ ((weekday d : Int) : ℚ) := by exact_mod_cast hwb.1
  have hwdQ6 : ((weekday d : Int) : ℚ) ≤ 6 := by exact_mod_cast hwb.2
  have hcd : (0 : ℚ) ≤ cs + dsp := by linarith
  refine ⟨?_, ?_, ?_, ?_⟩
  · nlinarith [mul_le_mul_of_nonneg_right hfwQ hcd]
  · nlinarith [mul_le_mul_of_nonneg_right hlwQ hcd]
  · push_cast
    nlinarith [mul_nonneg hwdQ0 hcd]
  · push_cast
    nlinarith [mul_le_mul_of_nonneg_right hwdQ6 hcd]

/-- In the horizontal/vertical branch with the `startDate` repair, every
emitted day entry carries its day's `getD`/`getC` coordinates. -/
theorem innerBlockHV_facts (cs ys ms dsp : ℚ) (mr : Int) (o1 o2 : ℚ) (i : Int)
    (s e : CDate) (bl : List DayEntry)
    (h : (timeDays s e).mapM (fun dayDate =>
        (cellPositionHorizontalVertical cs ys ms dsp mr o1 o2 dayDate i
          (some s)).map
          (fun xy => ({ date := dayDate, day := dayFormat dayDate, size := cs,
                        x := xy.1, y := xy.2 } : DayEntry))) = some bl) :
    ∀ b ∈ bl, b.date ∈ timeDays s e ∧
      b.x = some (o1 + getD b.date s ms dsp cs) ∧
      b.y = some (o2 + getC b.date i ys dsp mr cs) := by
  have hpt : ∀ a ∈ timeDays s e,
      (cellPositionHorizontalVertical cs ys ms dsp mr o1 o2 a i (some s)).map
        (fun xy => ({ date := a, day := dayFormat a, size := cs,
                      x := xy.1, y := xy.2 } : DayEntry)) =
      some ({ date := a, day := dayFormat a, size := cs,
              x := some (o1 + getD a s ms dsp cs),
              y := some (o2 + getC a i ys dsp mr cs) } : DayEntry) :=
    fun a _ => rfl
  have hmap := mapM_eq_map _ _ _ hpt
  rw [hmap, Option.some.injEq] at h
  intro b hb
  rw [← h] at hb
  obtain ⟨dd, hdd, hbee⟩ := List.mem_map.mp hb
  rw [← hbee]
  exact ⟨hdd, rfl, rfl⟩

/-! ## Year-bbox union infrastructure (claim C4) -/

theorem qmax_le (a b R : ℚ) (ha : a ≤ R) (hb : b ≤ R) : qmax a b ≤ R := by
  unfold qmax
  split_ifs <;> linarith

theorem qmax_eq_right (a b : ℚ) (h : a ≤ b) : qmax a b = b := by
  unfold qmax
  rw [if_pos h]

theorem qmin_eq_left (a b : ℚ) (h : a ≤ b) : qmin a b = a := by
  unfold qmin
  rw [if_pos h]

/-- Folding `Math.max` over values bounded by the final one yields the
final one. -/
theorem foldl_qmax_eq (l : List ℚ) :
    ∀ r0 R : ℚ, (∀ v ∈ l, v ≤ R) → r0 ≤ R → l.getLastD r0 = R →
      l.foldl qmax r0 = R := by
  induction l with
  | nil =>
    intro r0 R _ _ hlast
    exact hlast
  | cons v l ih =>
    intro r0 R hb h0 hlast
    simp only [List.foldl_cons]
    cases l with
    | nil =>
      have hv : v = R := hlast
      rw [hv]
      exact qmax_eq_right r0 R h0
    | cons w l' =>
      refine ih (qmax r0 v) R (fun u hu => hb u (List.mem_cons_of_mem _ hu))
        (qmax_le _ _ _ h0 (hb v (List.mem_cons_self _ _))) ?_
      rw [List.getLastD_cons, List.getLastD_cons] at hlast
      rw [List.getLastD_cons]
      exact hlast

/-- The `bboxUnion` fold over boxes sharing the first box's `y` band and
starting at or right of it keeps the first box's left edge and row and
accumulates the running maximal right edge. -/
theorem bboxUnion_foldl_general (l : List BBox) :
    ∀ acc : BBox,
      (∀ c ∈ l, c.y = acc.y ∧ c.height = acc.height ∧ acc.x ≤ c.x) →
      l.foldl (fun acc c =>
        { x := qmin acc.x c.x, y := qmin acc.y c.y,
          width := qmax (acc.x + acc.width) (c.x + c.width) - qmin acc.x c.x,
          height := qmax (acc.y + acc.height) (c.y + c.height) -
            qmin acc.y c.y }) acc =
      ⟨acc.x, acc.y,
       l.foldl (fun r c => qmax r (c.x + c.width)) (acc.x + acc.width) - acc.x,
       acc.height⟩ := by
  induction l with
  | nil =>
    intro acc _
    simp only [List.foldl_nil]
    cases acc with
    | mk ax ay aw ah =>
      show (⟨ax, ay, aw, ah⟩ : BBox) = ⟨ax, ay, ax + aw - ax, ah⟩
      have h9 : ax + aw - ax = aw := by ring
      rw [h9]
  | cons c l ih =>
    intro acc hc
    obtain ⟨hcy, hch, hcx⟩ := hc c (List.mem_cons_self _ _)
    simp only [List.foldl_cons]
    have h1 : qmin acc.x c.x = acc.x := qmin_eq_left _ _ hcx
    have h2 : qmin acc.y c.y = acc.y := by
      rw [hcy]
      exact qmin_eq_left _ _ (le_refl _)
    have h3 : qmax (acc.y + acc.height) (c.y + c.height) = acc.y + acc.height := by
      rw [hcy, hch]
      exact qmax_eq_right _ _ (le_refl _)
    have hcomb :
        ({ x := qmin acc.x c.x, y := qmin acc.y c.y,
           width := qmax (acc.x + acc.width) (c.x + c.width) - qmin acc.x c.x,
           height := qmax (acc.y + acc.height) (c.y + c.height) -
             qmin acc.y c.y } : BBox) =
        (⟨acc.x, acc.y, qmax (acc.x + acc.width) (c.x + c.width) - acc.x,
          acc.height⟩ : BBox) := by
      simp only [BBox.mk.injEq]
      exact ⟨h1, h2, by rw [h1], by rw [h3, h2]; ring⟩
    rw [hcomb]
    have ih2 := ih ⟨acc.x, acc.y,
        qmax (acc.x + acc.width) (c.x + c.width) - acc.x, acc.height⟩
      (by
        intro d hd
        obtain ⟨h4, h5, h6⟩ := hc d (List.mem_cons_of_mem _ hd)
        exact ⟨h4, h5, h6⟩)
    rw [ih2]
    have h8 : (⟨acc.x, acc.y,
        qmax (acc.x + acc.width) (c.x + c.width) - acc.x,
        acc.height⟩ : BBox).x +
        (⟨acc.x, acc.y, qmax (acc.x + acc.width) (c.x + c.width) - acc.x,
          acc.height⟩ : BBox).width =
        qmax (acc.x + acc.width) (c.x + c.width) := by
      show acc.x + (qmax (acc.x + acc.width) (c.x + c.width) - acc.x) = _
      ring
    rw [h8]

/-- The `bboxUnion` fold over boxes sharing the first box's `x` band and
starting at or below it keeps the first box's top edge and column and
accumulates the running maximal bottom edge. -/
theorem bboxUnion_foldl_general_v (l : List BBox) :
    ∀ acc : BBox,
      (∀ c ∈ l, c.x = acc.x ∧ c.width = acc.width ∧ acc.y ≤ c.y) →
      l.foldl (fun acc c =>
        { x := qmin acc.x c.x, y := qmin acc.y c.y,
          width := qmax (acc.x + acc.width) (c.x + c.width) - qmin acc.x c.x,
          height := qmax (acc.y + acc.height) (c.y + c.height) -
            qmin acc.y c.y }) acc =
      ⟨acc.x, acc.y, acc.width,
       l.foldl (fun r c => qmax r (c.y + c.height)) (acc.y + acc.height) -
         acc.y⟩ := by
  induction l with
  | nil =>
    intro acc _
    simp only [List.foldl_nil]
    cases acc with
    | mk ax ay aw ah =>
      show (⟨ax, ay, aw, ah⟩ : BBox) = ⟨ax, ay, aw, ay + ah - ay⟩
      have h9 : ay + ah - ay = ah := by ring
      rw [h9]
  | cons c l ih =>
    intro acc hc
    obtain ⟨hcx, hcw, hcy⟩ := hc c (List.mem_cons_self _ _)
    simp only [List.foldl_cons]
    have h1 : qmin acc.x c.x = acc.x := by
      rw [hcx]
      exact qmin_eq_left _ _ (le_refl _)
    have h2 : qmin acc.y c.y = acc.y := qmin_eq_left _ _ hcy
    have h3 : qmax (acc.x + acc.width) (c.x + c.width) = acc.x + acc.width := by
      rw [hcx, hcw]
      exact qmax_eq_right _ _ (le_refl _)
    have hcomb :
        ({ x := qmin acc.x c.x, y := qmin acc.y c.y,
           width := qmax (acc.x + acc.width) (c.x + c.width) - qmin acc.x c.x,
           height := qmax (acc.y + acc.height) (c.y + c.height) -
             qmin acc.y c.y } : BBox) =
        (⟨acc.x, acc.y, acc.width,
          qmax (acc.y + acc.height) (c.y + c.height) - acc.y⟩ : BBox) := by
      simp only [BBox.mk.injEq]
      exact ⟨h1, h2, by rw [h3, h1]; ring, by rw [h2]⟩
    rw [hcomb]
    have ih2 := ih ⟨acc.x, acc.y, acc.width,
        qmax (acc.y + acc.height) (c.y + c.height) - acc.y⟩
      (by
        intro d hd
        obtain ⟨h4, h5, h6⟩ := hc d (List.mem_cons_of_mem _ hd)
        exact ⟨h4, h5, h6⟩)
    rw [ih2]
    have h8 : (⟨acc.x, acc.y, acc.width,
        qmax (acc.y + acc.height) (c.y + c.height) - acc.y⟩ : BBox).y +
        (⟨acc.x, acc.y, acc.width,
          qmax (acc.y + acc.height) (c.y + c.height) - acc.y⟩ : BBox).height =
        qmax (acc.y + acc.height) (c.y + c.height) := by
      show acc.y + (qmax (acc.y + acc.height) (c.y + c.height) - acc.y) = _
      ring
    rw [h8]

theorem month_box_x (cs2 ys2 ms2 dsp2 o1 o2 : ℚ) (i yv j : Int)
    (hj0 : 0 ≤ j) (hj1 : j ≤ 11) :
    (monthPathAndBBox (monthFirst (12 * yv + j)) cs2 i ys2 ms2 dsp2
      "horizontal" o1 o2).bbox.x =
    o1 + (j : ℚ) * ms2 +
      ((weekCount ⟨yv, 0, 1⟩ (monthFirst (12 * yv + j)) : Int) : ℚ) *
        (cs2 + dsp2) := by
  have hdiv : (12 * yv + j) / 12 = yv := by omega
  have hmod : (12 * yv + j) % 12 = j := by omega
  have hraw : (monthPathAndBBox (monthFirst (12 * yv + j)) cs2 i ys2 ms2 dsp2
      "horizontal" o1 o2).bbox.x =
      o1 + (((12 * yv + j) % 12 : Int) : ℚ) * ms2 +
      ((weekCount ⟨(12 * yv + j) / 12, 0, 1⟩
        (monthFirst (12 * yv + j)) : Int) : ℚ) * (cs2 + dsp2) := rfl
  rw [hraw, hdiv, hmod]

theorem month_box_right (cs2 ys2 ms2 dsp2 o1 o2 : ℚ) (i yv j : Int)
    (hj0 : 0 ≤ j) (hj1 : j ≤ 11) :
    (monthPathAndBBox (monthFirst (12 * yv + j)) cs2 i ys2 ms2 dsp2
      "horizontal" o1 o2).bbox.x +
    (monthPathAndBBox (monthFirst (12 * yv + j)) cs2 i ys2 ms2 dsp2
      "horizontal" o1 o2).bbox.width =
    o1 + (j : ℚ) * ms2 +
      (((weekCount ⟨yv, 0, 1⟩ ⟨yv, j, daysInMonth yv j⟩ : Int) : ℚ) + 1) *
        (cs2 + dsp2) := by
  have hdiv : (12 * yv + j) / 12 = yv := by omega
  have hmod : (12 * yv + j) % 12 = j := by omega
  have hrawx : (monthPathAndBBox (monthFirst (12 * yv + j)) cs2 i ys2 ms2 dsp2
      "horizontal" o1 o2).bbox.x =
      o1 + (((12 * yv + j) % 12 : Int) : ℚ) * ms2 +
      ((weekCount ⟨(12 * yv + j) / 12, 0, 1⟩
        (monthFirst (12 * yv + j)) : Int) : ℚ) * (cs2 + dsp2) := rfl
  have hraww : (monthPathAndBBox (monthFirst (12 * yv + j)) cs2 i ys2 ms2 dsp2
      "horizontal" o1 o2).bbox.width =
      o1 + (((12 * yv + j) % 12 : Int) : ℚ) * ms2 +
        (((weekCount ⟨(12 * yv + j) / 12, 0, 1⟩
          ⟨(12 * yv + j) / 12, (12 * yv + j) % 12,
            daysInMonth ((12 * yv + j) / 12) ((12 * yv + j) % 12)⟩ : Int) : ℚ) + 1) *
          (cs2 + dsp2) -
      (o1 + (((12 * yv + j) % 12 : Int) : ℚ) * ms2 +
        ((weekCount ⟨(12 * yv + j) / 12, 0, 1⟩
          (monthFirst (12 * yv + j)) : Int) : ℚ) * (cs2 + dsp2)) := rfl
  rw [hrawx, hraww, hdiv, hmod]
  ring

theorem month_box_y (cs2 ys2 ms2 dsp2 o1 o2 : ℚ) (i : Int) (md : CDate) :
    (monthPathAndBBox md cs2 i ys2 ms2 dsp2 "horizontal" o1 o2).bbox.y =
    o2 + (i : ℚ) * (7 * (cs2 + dsp2) + ys2) := rfl

theorem month_box_height (cs2 ys2 ms2 dsp2 o1 o2 : ℚ) (i : Int) (md : CDate) :
    (monthPathAndBBox md cs2 i ys2 ms2 dsp2 "horizontal" o1 o2).bbox.height =
    7 * (cs2 + dsp2) := rfl

theorem month_box_x_v (cs2 ys2 ms2 dsp2 o1 o2 : ℚ) (i : Int) (dir : String)
    (hd : ¬dir = "horizontal") (md : CDate) :
    (monthPathAndBBox md cs2 i ys2 ms2 dsp2 dir o1 o2).bbox.x =
    o1 + (i : ℚ) * (7 * (cs2 + dsp2) + ys2) := by
  simp only [monthPathAndBBox, if_neg hd]

theorem month_box_width_v (cs2 ys2 ms2 dsp2 o1 o2 : ℚ) (i : Int) (dir : String)
    (hd : ¬dir = "horizontal") (md : CDate) :
    (monthPathAndBBox md cs2 i ys2 ms2 dsp2 dir o1 o2).bbox.width =
    7 * (cs2 + dsp2) := by
  simp only [monthPathAndBBox, if_neg hd]

theorem month_box_y_v (cs2 ys2 ms2 dsp2 o1 o2 : ℚ) (i yv j : Int) (dir : String)
    (hd : ¬dir = "horizontal") (hj0 : 0 ≤ j) (hj1 : j ≤ 11) :
    (monthPathAndBBox (monthFirst (12 * yv + j)) cs2 i ys2 ms2 dsp2
      dir o1 o2).bbox.y =
    o2 + (j : ℚ) * ms2 +
      ((weekCount ⟨yv, 0, 1⟩ (monthFirst (12 * yv + j)) : Int) : ℚ) *
        (cs2 + dsp2) := by
  have hdiv : (12 * yv + j) / 12 = yv := by omega
  have hmod : (12 * yv + j) % 12 = j := by omega
  have hraw : (monthPathAndBBox (monthFirst (12 * yv + j)) cs2 i ys2 ms2 dsp2
      dir o1 o2).bbox.y =
      o2 + (((12 * yv + j) % 12 : Int) : ℚ) * ms2 +
      ((weekCount ⟨(12 * yv + j) / 12, 0, 1⟩
        (monthFirst (12 * yv + j)) : Int) : ℚ) * (cs2 + dsp2) := by
    simp only [monthPathAndBBox, if_neg hd]
    rfl
  rw [hraw, hdiv, hmod]

theorem month_box_bottom_v (cs2 ys2 ms2 dsp2 o1 o2 : ℚ) (i yv j : Int)
    (dir : String) (hd : ¬dir = "horizontal") (hj0 : 0 ≤ j) (hj1 : j ≤ 11) :
    (monthPathAndBBox (monthFirst (12 * yv + j)) cs2 i ys2 ms2 dsp2
      dir o1 o2).bbox.y +
    (monthPathAndBBox (monthFirst (12 * yv + j)) cs2 i ys2 ms2 dsp2
      dir o1 o2).bbox.height =
    o2 + (j : ℚ) * ms2 +
      (((weekCount ⟨yv, 0, 1⟩ ⟨yv, j, daysInMonth yv j⟩ : Int) : ℚ) + 1) *
        (cs2 + dsp2) := by
  have hdiv : (12 * yv + j) / 12 = yv := by omega
  have hmod : (12 * yv + j) % 12 = j := by omega
  have hrawy : (monthPathAndBBox (monthFirst (12 * yv + j)) cs2 i ys2 ms2 dsp2
      dir o1 o2).bbox.y =
      o2 + (((12 * yv + j) % 12 : Int) : ℚ) * ms2 +
      ((weekCount ⟨(12 * yv + j) / 12, 0, 1⟩
        (monthFirst (12 * yv + j)) : Int) : ℚ) * (cs2 + dsp2) := by
    simp only [monthPathAndBBox, if_neg hd]
    rfl
  have hrawh : (monthPathAndBBox (monthFirst (12 * yv + j)) cs2 i ys2 ms2 dsp2
      dir o1 o2).bbox.height =
      o2 + (((12 * yv + j) % 12 : Int) : ℚ) * ms2 +
        (((weekCount ⟨(12 * yv + j) / 12, 0, 1⟩
          ⟨(12 * yv + j) / 12, (12 * yv + j) % 12,
            daysInMonth ((12 * yv + j) / 12) ((12 * yv + j) % 12)⟩ : Int) : ℚ) + 1) *
          (cs2 + dsp2) -
      (o2 + (((12 * yv + j) % 12 : Int) : ℚ) * ms2 +
        ((weekCount ⟨(12 * yv + j) / 12, 0, 1⟩
          (monthFirst (12 * yv + j)) : Int) : ℚ) * (cs2 + dsp2)) := by
    simp only [monthPathAndBBox, if_neg hd]
    rfl
  rw [hrawy, hrawh, hdiv, hmod]
  ring

theorem monthFirst_jfields (yv j : Int) (hj0 : 0 ≤ j) (hj1 : j ≤ 11) :
    monthFirst (12 * yv + j) = ⟨yv, j, 1⟩ := by
  show (⟨(12 * yv + j) / 12, (12 * yv + j) % 12, 1⟩ : CDate) = ⟨yv, j, 1⟩
  simp only [CDate.mk.injEq, and_true]
  exact ⟨by omega, by omega⟩

theorem serial_day_linear (y m d : Int) :
    toSerial ⟨y, m, d⟩ = toSerial ⟨y, m, 1⟩ + d - 1 := by
  show serial y m d = serial y m 1 + d - 1
  unfold serial
  ring

theorem month_fw_le (yv j1 j2 : Int) (h : j1 ≤ j2) :
    weekCount ⟨yv, 0, 1⟩ (monthFirst (12 * yv + j1)) ≤
    weekCount ⟨yv, 0, 1⟩ (monthFirst (12 * yv + j2)) := by
  apply weekCount_mono
  have := serial_monthFirst_mono (12 * yv + j1) (12 * yv + j2) (by omega)
  omega

theorem month_last_serial_le (yv j1 j2 : Int) (h0 : 0 ≤ j1) (h12 : j1 ≤ j2)
    (h2 : j2 ≤ 11) :
    toSerial ⟨yv, j1, daysInMonth yv j1⟩ ≤
    toSerial ⟨yv, j2, daysInMonth yv j2⟩ := by
  rcases eq_or_lt_of_le h12 with rfl | hlt
  · exact le_refl _
  · have hstep := serial_monthFirst_step (12 * yv + j1)
    have hd1 : (12 * yv + j1) / 12 = yv := by omega
    have hm1 : (12 * yv + j1) % 12 = j1 := by omega
    rw [hd1, hm1] at hstep
    have hmf1 : monthFirst (12 * yv + j1) = ⟨yv, j1, 1⟩ :=
      monthFirst_jfields yv j1 h0 (by omega)
    have hmf2 : monthFirst (12 * yv + j2) = ⟨yv, j2, 1⟩ :=
      monthFirst_jfields yv j2 (by omega) h2
    have hlin1 := serial_day_linear yv j1 (daysInMonth yv j1)
    have hlin2 := serial_day_linear yv j2 (daysInMonth yv j2)
    have hmono := serial_monthFirst_mono (12 * yv + j1 + 1) (12 * yv + j2)
      (by omega)
    have hlb2 := daysInMonth_lb yv j2
    rw [hmf1] at hstep
    rw [hmf2] at hmono
    have hstep2 : 12 * yv + j1 + 1 = 12 * yv + (j1 + 1) := by ring
    have hmf1' : monthFirst (12 * yv + (j1 + 1)) = ⟨yv, j1 + 1, 1⟩ :=
      monthFirst_jfields yv (j1 + 1) (by omega) (by omega)
    rw [hstep2, hmf1'] at hstep hmono
    omega

theorem month_lw_le (yv j1 j2 : Int) (h0 : 0 ≤ j1) (h12 : j1 ≤ j2)
    (h2 : j2 ≤ 11) :
    weekCount ⟨yv, 0, 1⟩ ⟨yv, j1, daysInMonth yv j1⟩ ≤
    weekCount ⟨yv, 0, 1⟩ ⟨yv, j2, daysInMonth yv j2⟩ :=
  weekCount_mono _ _ _ (month_last_serial_le yv j1 j2 h0 h12 h2)

/-- The year descriptor of a one-year horizontal block has exactly the
union bbox of its 12 month descriptors: the months sit left to right in a
common 7-row band, so the corner reads `yearMonths[0]` / `yearMonths[11]`
coincide with the min/max folds. -/
theorem blockYear_bbox_union (cs2 ys2 ms2 dsp2 o1 o2 : ℚ) (i yv : Int)
    (hms : 0 ≤ ms2) (hcd : 0 ≤ cs2 + dsp2) (ye : YearEntry)
    (h : blockYear (blockMonths cs2 ys2 ms2 dsp2 "horizontal" o1 o2 i
        ⟨yv, 0, 1⟩ ⟨yv + 1, 0, 1⟩) ⟨yv, 0, 1⟩ = some ye) :
    ye.bbox = bboxUnion ((blockMonths cs2 ys2 ms2 dsp2 "horizontal" o1 o2 i
        ⟨yv, 0, 1⟩ ⟨yv + 1, 0, 1⟩).map (fun m => m.bbox)) := by
  have htm : timeMonths ⟨yv, 0, 1⟩ ⟨yv + 1, 0, 1⟩ =
      (List.range 12).map (fun (k : Nat) => monthFirst (12 * yv + (k : Int))) := by
    unfold timeMonths
    have h2 : (monthIdx ⟨yv + 1, 0, 1⟩ - monthIdx ⟨yv, 0, 1⟩).toNat = 12 := by
      show ((12 * (yv + 1) + 0) - (12 * yv + 0)).toNat = 12
      omega
    have h1 : monthIdx ⟨yv, 0, 1⟩ = 12 * yv := by
      show 12 * yv + 0 = 12 * yv
      ring
    rw [h2]
    simp only [h1]
  have hblist : (blockMonths cs2 ys2 ms2 dsp2 "horizontal" o1 o2 i
      ⟨yv, 0, 1⟩ ⟨yv + 1, 0, 1⟩).map (fun m => m.bbox) =
      (List.range 12).map (fun (k : Nat) =>
        (monthPathAndBBox (monthFirst (12 * yv + (k : Int))) cs2 i ys2 ms2 dsp2
          "horizontal" o1 o2).bbox) := by
    unfold blockMonths
    rw [htm, List.map_map, List.map_map]
    exact List.map_congr_left (fun k _ => rfl)
  have hbm12 : blockMonths cs2 ys2 ms2 dsp2 "horizontal" o1 o2 i
      ⟨yv, 0, 1⟩ ⟨yv + 1, 0, 1⟩ =
      (List.range 12).map (fun (k : Nat) =>
        ({ date := monthFirst (12 * yv + (k : Int)),
           year := (monthFirst (12 * yv + (k : Int))).y,
           month := (monthFirst (12 * yv + (k : Int))).m,
           path := (monthPathAndBBox (monthFirst (12 * yv + (k : Int))) cs2 i
             ys2 ms2 dsp2 "horizontal" o1 o2).path,
           bbox := (monthPathAndBBox (monthFirst (12 * yv + (k : Int))) cs2 i
             ys2 ms2 dsp2 "horizontal" o1 o2).bbox } : MonthEntry)) := by
    unfold blockMonths
    rw [htm, List.map_map]
    exact List.map_congr_left (fun k _ => rfl)
  rw [hbm12] at h
  have h' :
      some ({ year := (⟨yv, 0, 1⟩ : CDate),
              bbox :=
                { x := (monthPathAndBBox (monthFirst (12 * yv + 0)) cs2 i ys2
                    ms2 dsp2 "horizontal" o1 o2).bbox.x,
                  y := (monthPathAndBBox (monthFirst (12 * yv + 0)) cs2 i ys2
                    ms2 dsp2 "horizontal" o1 o2).bbox.y,
                  width := (monthPathAndBBox (monthFirst (12 * yv + 11)) cs2 i
                      ys2 ms2 dsp2 "horizontal" o1 o2).bbox.x -
                    (monthPathAndBBox (monthFirst (12 * yv + 0)) cs2 i ys2 ms2
                      dsp2 "horizontal" o1 o2).bbox.x +
                    (monthPathAndBBox (monthFirst (12 * yv + 11)) cs2 i ys2 ms2
                      dsp2 "horizontal" o1 o2).bbox.width,
                  height := (monthPathAndBBox (monthFirst (12 * yv + 11)) cs2 i
                      ys2 ms2 dsp2 "horizontal" o1 o2).bbox.y -
                    (monthPathAndBBox (monthFirst (12 * yv + 0)) cs2 i ys2 ms2
                      dsp2 "horizontal" o1 o2).bbox.y +
                    (monthPathAndBBox (monthFirst (12 * yv + 11)) cs2 i ys2 ms2
                      dsp2 "horizontal" o1 o2).bbox.height } } : YearEntry) =
      some ye := h
  rw [Option.some.injEq] at h'
  rw [← h']
  rw [hblist]
  have hsplit : (List.range 12).map (fun (k : Nat) =>
      (monthPathAndBBox (monthFirst (12 * yv + (k : Int))) cs2 i ys2 ms2 dsp2
        "horizontal" o1 o2).bbox) =
      (monthPathAndBBox (monthFirst (12 * yv + ((0 : Nat) : Int))) cs2 i ys2
        ms2 dsp2 "horizontal" o1 o2).bbox ::
      (List.range 11).map (fun (k : Nat) =>
        (monthPathAndBBox (monthFirst (12 * yv + ((k : Int) + 1))) cs2 i ys2
          ms2 dsp2 "horizontal" o1 o2).bbox) := by
    rfl
  rw [hsplit]
  simp only [bboxUnion]
  rw [bboxUnion_foldl_general _ _ ?cond]
  case cond =>
    intro c hc
    obtain ⟨k, hk, hkeq⟩ := List.mem_map.mp hc
    rw [List.mem_range] at hk
    rw [← hkeq]
    refine ⟨?_, ?_, ?_⟩
    · simp only [month_box_y]
    · simp only [month_box_height]
    · rw [month_box_x cs2 ys2 ms2 dsp2 o1 o2 i yv (((0 : Nat) : Int))
          (by omega) (by omega),
        month_box_x cs2 ys2 ms2 dsp2 o1 o2 i yv ((k : Int) + 1)
          (by omega) (by omega)]
      have hfw := month_fw_le yv ((0 : Nat) : Int) ((k : Int) + 1) (by omega)
      have hfwQ : ((weekCount ⟨yv, 0, 1⟩
          (monthFirst (12 * yv + ((0 : Nat) : Int))) : Int) : ℚ) ≤
          ((weekCount ⟨yv, 0, 1⟩
            (monthFirst (12 * yv + ((k : Int) + 1))) : Int) : ℚ) := by
        exact_mod_cast hfw
      have hp := mul_le_mul_of_nonneg_right hfwQ hcd
      have hp2 : (0 : ℚ) ≤ ((k : ℚ) + 1) * ms2 :=
        mul_nonneg (by positivity) hms
      push_cast at hp hp2 ⊢
      nlinarith [hp, hp2]
  · have hrew : ((List.range 11).map (fun (k : Nat) =>
        (monthPathAndBBox (monthFirst (12 * yv + ((k : Int) + 1))) cs2 i ys2
          ms2 dsp2 "horizontal" o1 o2).bbox)).foldl
        (fun r c => qmax r (c.x + c.width))
        ((monthPathAndBBox (monthFirst (12 * yv + (((0 : Nat) : Int)))) cs2 i
            ys2 ms2 dsp2 "horizontal" o1 o2).bbox.x +
          (monthPathAndBBox (monthFirst (12 * yv + (((0 : Nat) : Int)))) cs2 i
            ys2 ms2 dsp2 "horizontal" o1 o2).bbox.width) =
        ((List.range 11).map (fun (k : Nat) =>
          (monthPathAndBBox (monthFirst (12 * yv + ((k : Int) + 1))) cs2 i ys2
            ms2 dsp2 "horizontal" o1 o2).bbox.x +
          (monthPathAndBBox (monthFirst (12 * yv + ((k : Int) + 1))) cs2 i ys2
            ms2 dsp2 "horizontal" o1 o2).bbox.width)).foldl qmax
        ((monthPathAndBBox (monthFirst (12 * yv + (((0 : Nat) : Int)))) cs2 i
            ys2 ms2 dsp2 "horizontal" o1 o2).bbox.x +
          (monthPathAndBBox (monthFirst (12 * yv + (((0 : Nat) : Int)))) cs2 i
            ys2 ms2 dsp2 "horizontal" o1 o2).bbox.width) := by
      rw [List.foldl_map, List.foldl_map]
    have hfold : ((List.range 11).map (fun (k : Nat) =>
        (monthPathAndBBox (monthFirst (12 * yv + ((k : Int) + 1))) cs2 i ys2
          ms2 dsp2 "horizontal" o1 o2).bbox.x +
        (monthPathAndBBox (monthFirst (12 * yv + ((k : Int) + 1))) cs2 i ys2
          ms2 dsp2 "horizontal" o1 o2).bbox.width)).foldl qmax
        ((monthPathAndBBox (monthFirst (12 * yv + (((0 : Nat) : Int)))) cs2 i
            ys2 ms2 dsp2 "horizontal" o1 o2).bbox.x +
          (monthPathAndBBox (monthFirst (12 * yv + (((0 : Nat) : Int)))) cs2 i
            ys2 ms2 dsp2 "horizontal" o1 o2).bbox.width) =
        (monthPathAndBBox (monthFirst (12 * yv + 11)) cs2 i ys2 ms2 dsp2
            "horizontal" o1 o2).bbox.x +
          (monthPathAndBBox (monthFirst (12 * yv + 11)) cs2 i ys2 ms2 dsp2
            "horizontal" o1 o2).bbox.width := by
      refine foldl_qmax_eq _ _ _ ?_ ?_ ?_
      ·
        intro v hv
        obtain ⟨k, hk, hkeq⟩ := List.mem_map.mp hv
        rw [List.mem_range] at hk
        rw [← hkeq]
        rw [month_box_right cs2 ys2 ms2 dsp2 o1 o2 i yv ((k : Int) + 1)
            (by omega) (by omega),
          month_box_right cs2 ys2 ms2 dsp2 o1 o2 i yv 11 (by omega) (by omega)]
        have hlw := month_lw_le yv ((k : Int) + 1) 11 (by omega) (by omega)
          (by omega)
        have hlwQ : ((weekCount ⟨yv, 0, 1⟩
            ⟨yv, (k : Int) + 1, daysInMonth yv ((k : Int) + 1)⟩ : Int) : ℚ) ≤
            ((weekCount ⟨yv, 0, 1⟩ ⟨yv, 11, daysInMonth yv 11⟩ : Int) : ℚ) := by
          exact_mod_cast hlw
        have hp := mul_le_mul_of_nonneg_right hlwQ hcd
        have hkb : ((k : ℚ) + 1) * ms2 ≤ 11 * ms2 :=
          mul_le_mul_of_nonneg_right
            (by exact_mod_cast (by omega : (k : Int) + 1 ≤ 11)) hms
        push_cast at hp hkb ⊢
        nlinarith [hp, hkb]
      ·
        rw [month_box_right cs2 ys2 ms2 dsp2 o1 o2 i yv ((0 : Nat) : Int)
            (by omega) (by omega),
          month_box_right cs2 ys2 ms2 dsp2 o1 o2 i yv 11 (by omega) (by omega)]
        have hlw := month_lw_le yv ((0 : Nat) : Int) 11 (by omega) (by omega)
          (by omega)
        have hlwQ : ((weekCount ⟨yv, 0, 1⟩
            ⟨yv, ((0 : Nat) : Int), daysInMonth yv ((0 : Nat) : Int)⟩ : Int) : ℚ) ≤
            ((weekCount ⟨yv, 0, 1⟩ ⟨yv, 11, daysInMonth yv 11⟩ : Int) : ℚ) := by
          exact_mod_cast hlw
        have hp := mul_le_mul_of_nonneg_right hlwQ hcd
        have hkb : (0 : ℚ) * ms2 ≤ 11 * ms2 :=
          mul_le_mul_of_nonneg_right (by norm_num) hms
        push_cast at hp hkb ⊢
        nlinarith [hp, hkb]
      · rfl
    rw [hrew, hfold]
    show ({ x := (monthPathAndBBox (monthFirst (12 * yv + 0)) cs2 i ys2
              ms2 dsp2 "horizontal" o1 o2).bbox.x,
            y := (monthPathAndBBox (monthFirst (12 * yv + 0)) cs2 i ys2
              ms2 dsp2 "horizontal" o1 o2).bbox.y,
            width := (monthPathAndBBox (monthFirst (12 * yv + 11)) cs2 i
                ys2 ms2 dsp2 "horizontal" o1 o2).bbox.x -
              (monthPathAndBBox (monthFirst (12 * yv + 0)) cs2 i ys2 ms2
                dsp2 "horizontal" o1 o2).bbox.x +
              (monthPathAndBBox (monthFirst (12 * yv + 11)) cs2 i ys2 ms2
                dsp2 "horizontal" o1 o2).bbox.width,
            height := (monthPathAndBBox (monthFirst (12 * yv + 11)) cs2 i
                ys2 ms2 dsp2 "horizontal" o1 o2).bbox.y -
              (monthPathAndBBox (monthFirst (12 * yv + 0)) cs2 i ys2 ms2
                dsp2 "horizontal" o1 o2).bbox.y +
              (monthPathAndBBox (monthFirst (12 * yv + 11)) cs2 i ys2 ms2
                dsp2 "horizontal" o1 o2).bbox.height } : BBox) = _
    simp only [BBox.mk.injEq]
    refine ⟨rfl, rfl, ?_, ?_⟩
    · have hc0 : (monthPathAndBBox (monthFirst (12 * yv + ((0 : Nat) : Int)))
          cs2 i ys2 ms2 dsp2 "horizontal" o1 o2).bbox.x =
          (monthPathAndBBox (monthFirst (12 * yv + 0)) cs2 i ys2 ms2 dsp2
            "horizontal" o1 o2).bbox.x := rfl
      rw [hc0]
      ring
    · simp only [month_box_y, month_box_height]
      ring

/-- The year descriptor of a one-year non-horizontal block has exactly the
union bbox of its 12 month descriptors: the months sit top to bottom in a
common 7-column band, so the corner reads `yearMonths[0]` / `yearMonths[11]`
coincide with the min/max folds. -/
theorem blockYear_bbox_union_v (cs2 ys2 ms2 dsp2 o1 o2 : ℚ) (i yv : Int)
    (dir : String) (hd : ¬dir = "horizontal")
    (hms : 0 ≤ ms2) (hcd : 0 ≤ cs2 + dsp2) (ye : YearEntry)
    (h : blockYear (blockMonths cs2 ys2 ms2 dsp2 dir o1 o2 i
        ⟨yv, 0, 1⟩ ⟨yv + 1, 0, 1⟩) ⟨yv, 0, 1⟩ = some ye) :
    ye.bbox = bboxUnion ((blockMonths cs2 ys2 ms2 dsp2 dir o1 o2 i
        ⟨yv, 0, 1⟩ ⟨yv + 1, 0, 1⟩).map (fun m => m.bbox)) := by
  have htm : timeMonths ⟨yv, 0, 1⟩ ⟨yv + 1, 0, 1⟩ =
      (List.range 12).map (fun (k : Nat) => monthFirst (12 * yv + (k : Int))) := by
    unfold timeMonths
    have h2 : (monthIdx ⟨yv + 1, 0, 1⟩ - monthIdx ⟨yv, 0, 1⟩).toNat = 12 := by
      show ((12 * (yv + 1) + 0) - (12 * yv + 0)).toNat = 12
      omega
    have h1 : monthIdx ⟨yv, 0, 1⟩ = 12 * yv := by
      show 12 * yv + 0 = 12 * yv
      ring
    rw [h2]
    simp only [h1]
  have hblist : (blockMonths cs2 ys2 ms2 dsp2 dir o1 o2 i
      ⟨yv, 0, 1⟩ ⟨yv + 1, 0, 1⟩).map (fun m => m.bbox) =
      (List.range 12).map (fun (k : Nat) =>
        (monthPathAndBBox (monthFirst (12 * yv + (k : Int))) cs2 i ys2 ms2 dsp2
          dir o1 o2).bbox) := by
    unfold blockMonths
    rw [htm, List.map_map, List.map_map]
    exact List.map_congr_left (fun k _ => rfl)
  have hbm12 : blockMonths cs2 ys2 ms2 dsp2 dir o1 o2 i
      ⟨yv, 0, 1⟩ ⟨yv + 1, 0, 1⟩ =
      (List.range 12).map (fun (k : Nat) =>
        ({ date := monthFirst (12 * yv + (k : Int)),
           year := (monthFirst (12 * yv + (k : Int))).y,
           month := (monthFirst (12 * yv + (k : Int))).m,
           path := (monthPathAndBBox (monthFirst (12 * yv + (k : Int))) cs2 i
             ys2 ms2 dsp2 dir o1 o2).path,
           bbox := (monthPathAndBBox (monthFirst (12 * yv + (k : Int))) cs2 i
             ys2 ms2 dsp2 dir o1 o2).bbox } : MonthEntry)) := by
    unfold blockMonths
    rw [htm, List.map_map]
    exact List.map_congr_left (fun k _ => rfl)
  rw [hbm12] at h
  have h' :
      some ({ year := (⟨yv, 0, 1⟩ : CDate),
              bbox :=
                { x := (monthPathAndBBox (monthFirst (12 * yv + 0)) cs2 i ys2
                    ms2 dsp2 dir o1 o2).bbox.x,
                  y := (monthPathAndBBox (monthFirst (12 * yv + 0)) cs2 i ys2
                    ms2 dsp2 dir o1 o2).bbox.y,
                  width := (monthPathAndBBox (monthFirst (12 * yv + 11)) cs2 i
                      ys2 ms2 dsp2 dir o1 o2).bbox.x -
                    (monthPathAndBBox (monthFirst (12 * yv + 0)) cs2 i ys2 ms2
                      dsp2 dir o1 o2).bbox.x +
                    (monthPathAndBBox (monthFirst (12 * yv + 11)) cs2 i ys2 ms2
                      dsp2 dir o1 o2).bbox.width,
                  height := (monthPathAndBBox (monthFirst (12 * yv + 11)) cs2 i
                      ys2 ms2 dsp2 dir o1 o2).bbox.y -
                    (monthPathAndBBox (monthFirst (12 * yv + 0)) cs2 i ys2 ms2
                      dsp2 dir o1 o2).bbox.y +
                    (monthPathAndBBox (monthFirst (12 * yv + 11)) cs2 i ys2 ms2
                      dsp2 dir o1 o2).bbox.height } } : YearEntry) =
      some ye := h
  rw [Option.some.injEq] at h'
  rw [← h']
  rw [hblist]
  have hsplit : (List.range 12).map (fun (k : Nat) =>
      (monthPathAndBBox (monthFirst (12 * yv + (k : Int))) cs2 i ys2 ms2 dsp2
        dir o1 o2).bbox) =
      (monthPathAndBBox (monthFirst (12 * yv + ((0 : Nat) : Int))) cs2 i ys2
        ms2 dsp2 dir o1 o2).bbox ::
      (List.range 11).map (fun (k : Nat) =>
        (monthPathAndBBox (monthFirst (12 * yv + ((k : Int) + 1))) cs2 i ys2
          ms2 dsp2 dir o1 o2).bbox) := by
    rfl
  rw [hsplit]
  simp only [bboxUnion]
  rw [bboxUnion_foldl_general_v _ _ ?cond]
  case cond =>
    intro c hc
    obtain ⟨k, hk, hkeq⟩ := List.mem_map.mp hc
    rw [List.mem_range] at hk
    rw [← hkeq]
    refine ⟨?_, ?_, ?_⟩
    · simp only [month_box_x_v cs2 ys2 ms2 dsp2 o1 o2 i dir hd]
    · simp only [month_box_width_v cs2 ys2 ms2 dsp2 o1 o2 i dir hd]
    · rw [month_box_y_v cs2 ys2 ms2 dsp2 o1 o2 i yv (((0 : Nat) : Int)) dir hd
          (by omega) (by omega),
        month_box_y_v cs2 ys2 ms2 dsp2 o1 o2 i yv ((k : Int) + 1) dir hd
          (by omega) (by omega)]
      have hfw := month_fw_le yv ((0 : Nat) : Int) ((k : Int) + 1) (by omega)
      have hfwQ : ((weekCount ⟨yv, 0, 1⟩
          (monthFirst (12 * yv + ((0 : Nat) : Int))) : Int) : ℚ) ≤
          ((weekCount ⟨yv, 0, 1⟩
            (monthFirst (12 * yv + ((k : Int) + 1))) : Int) : ℚ) := by
        exact_mod_cast hfw
      have hp := mul_le_mul_of_nonneg_right hfwQ hcd
      have hp2 : (0 : ℚ) ≤ ((k : ℚ) + 1) * ms2 :=
        mul_nonneg (by positivity) hms
      push_cast at hp hp2 ⊢
      nlinarith [hp, hp2]
  · have hrew : ((List.range 11).map (fun (k : Nat) =>
        (monthPathAndBBox (monthFirst (12 * yv + ((k : Int) + 1))) cs2 i ys2
          ms2 dsp2 dir o1 o2).bbox)).foldl
        (fun r c => qmax r (c.y + c.height))
        ((monthPathAndBBox (monthFirst (12 * yv + (((0 : Nat) : Int)))) cs2 i
            ys2 ms2 dsp2 dir o1 o2).bbox.y +
          (monthPathAndBBox (monthFirst (12 * yv + (((0 : Nat) : Int)))) cs2 i
            ys2 ms2 dsp2 dir o1 o2).bbox.height) =
        ((List.range 11).map (fun (k : Nat) =>
          (monthPathAndBBox (monthFirst (12 * yv + ((k : Int) + 1))) cs2 i ys2
            ms2 dsp2 dir o1 o2).bbox.y +
          (monthPathAndBBox (monthFirst (12 * yv + ((k : Int) + 1))) cs2 i ys2
            ms2 dsp2 dir o1 o2).bbox.height)).foldl qmax
        ((monthPathAndBBox (monthFirst (12 * yv + (((0 : Nat) : Int)))) cs2 i
            ys2 ms2 dsp2 dir o1 o2).bbox.y +
          (monthPathAndBBox (monthFirst (12 * yv + (((0 : Nat) : Int)))) cs2 i
            ys2 ms2 dsp2 dir o1 o2).bbox.height) := by
      rw [List.foldl_map, List.foldl_map]
    have hfold : ((List.range 11).map (fun (k : Nat) =>
        (monthPathAndBBox (monthFirst (12 * yv + ((k : Int) + 1))) cs2 i ys2
          ms2 dsp2 dir o1 o2).bbox.y +
        (monthPathAndBBox (monthFirst (12 * yv + ((k : Int) + 1))) cs2 i ys2
          ms2 dsp2 dir o1 o2).bbox.height)).foldl qmax
        ((monthPathAndBBox (monthFirst (12 * yv + (((0 : Nat) : Int)))) cs2 i
            ys2 ms2 dsp2 dir o1 o2).bbox.y +
          (monthPathAndBBox (monthFirst (12 * yv + (((0 : Nat) : Int)))) cs2 i
            ys2 ms2 dsp2 dir o1 o2).bbox.height) =
        (monthPathAndBBox (monthFirst (12 * yv + 11)) cs2 i ys2 ms2 dsp2
            dir o1 o2).bbox.y +
          (monthPathAndBBox (monthFirst (12 * yv + 11)) cs2 i ys2 ms2 dsp2
            dir o1 o2).bbox.height := by
      refine foldl_qmax_eq _ _ _ ?_ ?_ ?_
      ·
        intro v hv
        obtain ⟨k, hk, hkeq⟩ := List.mem_map.mp hv
        rw [List.mem_range] at hk
        rw [← hkeq]
        rw [month_box_bottom_v cs2 ys2 ms2 dsp2 o1 o2 i yv ((k : Int) + 1)
            dir hd (by omega) (by omega),
          month_box_bottom_v cs2 ys2 ms2 dsp2 o1 o2 i yv 11 dir hd
            (by omega) (by omega)]
        have hlw := month_lw_le yv ((k : Int) + 1) 11 (by omega) (by omega)
          (by omega)
        have hlwQ : ((weekCount ⟨yv, 0, 1⟩
            ⟨yv, (k : Int) + 1, daysInMonth yv ((k : Int) + 1)⟩ : Int) : ℚ) ≤
            ((weekCount ⟨yv, 0, 1⟩ ⟨yv, 11, daysInMonth yv 11⟩ : Int) : ℚ) := by
          exact_mod_cast hlw
        have hp := mul_le_mul_of_nonneg_right hlwQ hcd
        have hkb : ((k : ℚ) + 1) * ms2 ≤ 11 * ms2 :=
          mul_le_mul_of_nonneg_right
            (by exact_mod_cast (by omega : (k : Int) + 1 ≤ 11)) hms
        push_cast at hp hkb ⊢
        nlinarith [hp, hkb]
      ·
        rw [month_box_bottom_v cs2 ys2 ms2 dsp2 o1 o2 i yv ((0 : Nat) : Int)
            dir hd (by omega) (by omega),
          month_box_bottom_v cs2 ys2 ms2 dsp2 o1 o2 i yv 11 dir hd
            (by omega) (by omega)]
        have hlw := month_lw_le yv ((0 : Nat) : Int) 11 (by omega) (by omega)
          (by omega)
        have hlwQ : ((weekCount ⟨yv, 0, 1⟩
            ⟨yv, ((0 : Nat) : Int), daysInMonth yv ((0 : Nat) : Int)⟩ : Int) : ℚ) ≤
            ((weekCount ⟨yv, 0, 1⟩ ⟨yv, 11, daysInMonth yv 11⟩ : Int) : ℚ) := by
          exact_mod_cast hlw
        have hp := mul_le_mul_of_nonneg_right hlwQ hcd
        have hkb : (0 : ℚ) * ms2 ≤ 11 * ms2 :=
          mul_le_mul_of_nonneg_right (by norm_num) hms
        push_cast at hp hkb ⊢
        nlinarith [hp, hkb]
      · rfl
    rw [hrew, hfold]
    show ({ x := (monthPathAndBBox (monthFirst (12 * yv + 0)) cs2 i ys2
              ms2 dsp2 dir o1 o2).bbox.x,
            y := (monthPathAndBBox (monthFirst (12 * yv + 0)) cs2 i ys2
              ms2 dsp2 dir o1 o2).bbox.y,
            width := (monthPathAndBBox (monthFirst (12 * yv + 11)) cs2 i
                ys2 ms2 dsp2 dir o1 o2).bbox.x -
              (monthPathAndBBox (monthFirst (12 * yv + 0)) cs2 i ys2 ms2
                dsp2 dir o1 o2).bbox.x +
              (monthPathAndBBox (monthFirst (12 * yv + 11)) cs2 i ys2 ms2
                dsp2 dir o1 o2).bbox.width,
            height := (monthPathAndBBox (monthFirst (12 * yv + 11)) cs2 i
                ys2 ms2 dsp2 dir o1 o2).bbox.y -
              (monthPathAndBBox (monthFirst (12 * yv + 0)) cs2 i ys2 ms2
                dsp2 dir o1 o2).bbox.y +
              (monthPathAndBBox (monthFirst (12 * yv + 11)) cs2 i ys2 ms2
                dsp2 dir o1 o2).bbox.height } : BBox) = _
    simp only [BBox.mk.injEq]
    refine ⟨rfl, rfl, ?_, ?_⟩
    · simp only [month_box_x_v cs2 ys2 ms2 dsp2 o1 o2 i dir hd,
        month_box_width_v cs2 ys2 ms2 dsp2 o1 o2 i dir hd]
      ring
    · have hc0 : (monthPathAndBBox (monthFirst (12 * yv + ((0 : Nat) : Int)))
          cs2 i ys2 ms2 dsp2 dir o1 o2).bbox.y =
          (monthPathAndBBox (monthFirst (12 * yv + 0)) cs2 i ys2 ms2 dsp2
            dir o1 o2).bbox.y := rfl
      rw [hc0]
      ring

/-- For any direction string, the year descriptor of a one-year block is
exactly the union bbox of its 12 month descriptors: the horizontal branch
lays months left to right in a 7-row band, every other direction value
takes the vertical branch and stacks them top to bottom in a 7-column
band, and in both cases the corner reads coincide with the union folds. -/
theorem blockYear_bbox_union_any (cs2 ys2 ms2 dsp2 o1 o2 : ℚ) (i yv : Int)
    (dir : String)
    (hms : 0 ≤ ms2) (hcd : 0 ≤ cs2 + dsp2) (ye : YearEntry)
    (h : blockYear (blockMonths cs2 ys2 ms2 dsp2 dir o1 o2 i
        ⟨yv, 0, 1⟩ ⟨yv + 1, 0, 1⟩) ⟨yv, 0, 1⟩ = some ye) :
    ye.bbox = bboxUnion ((blockMonths cs2 ys2 ms2 dsp2 dir o1 o2 i
        ⟨yv, 0, 1⟩ ⟨yv + 1, 0, 1⟩).map (fun m => m.bbox)) := by
  by_cases hdir : dir = "horizontal"
  · subst hdir
    exact blockYear_bbox_union cs2 ys2 ms2 dsp2 o1 o2 i yv hms hcd ye h
  · exact blockYear_bbox_union_v cs2 ys2 ms2 dsp2 o1 o2 i yv dir hdir
      hms hcd ye h

theorem blockYear_year (ms : List MonthEntry) (s : CDate) (y : YearEntry)
    (h : blockYear ms s = some y) : y.year = s := by
  unfold blockYear at h
  split at h
  · simp only [Option.some.injEq] at h
    rw [← h]
  · exact absurd h (by simp)

/-! ## Concrete instantiations used by witnesses and counterexamples -/

/-- A trivial instantiation of the external `alignBox` collaborator
(alignment is out of scope; theorems quantify over it). -/
def zeroAlign : BBox → BBox → String → ℚ × ℚ := fun _ _ _ => (0, 0)

/-- The optional value is present and satisfies `p` (used to state facts
about the `Option`-valued layout at concrete inputs). -/
def optHolds {α : Type} (p : α → Prop) : Option α → Prop
  | none => False
  | some a => p a

instance {α : Type} (p : α → Prop) [dp : DecidablePred p] :
    (o : Option α) → Decidable (optHolds p o)
  | none => .isFalse (fun h => h)
  | some a => dp a

/-! ## Claim theorems -/

/-- Claim C5: `bindDaysData` defaults every day cell's color to
`emptyColor`; each data record whose `day` key equals the cell's key
overwrites `value`, sets `color = colorScale(value)` and attaches the raw
record, the last matching record winning; a cell with no matching record
keeps `emptyColor` and gains no value or data field. -/
theorem c5_bind_days_data (days : List BoundDay) (data : List CalendarDatum)
    (colorScale : ℚ → String) (emptyColor : String) :
    bindDaysData days data colorScale emptyColor = days.map (fun d =>
      match (data.filter (fun r => r.day = d.day)).getLast? with
      | none => { d with color := emptyColor }
      | some r =>
        { d with
          color := colorScale r.value,
          value := some r.value,
          data := some r }) := by
  unfold bindDaysData
  refine List.map_congr_left (fun d _ => ?_)
  induction data using List.reverseRecOn with
  | nil => rfl
  | append_singleton xs x ih =>
    rw [List.foldl_append, List.filter_append, ih]
    by_cases hx : x.day = d.day
    · have hfx : List.filter (fun r => decide (r.day = d.day)) [x] = [x] := by
        simp [hx]
      rw [hfx, List.getLast?_concat]
      simp only [List.foldl_cons, List.foldl_nil]
      rw [if_pos hx]
      cases (List.filter (fun r => decide (r.day = d.day)) xs).getLast? <;> rfl
    · have hfx : List.filter (fun r => decide (r.day = d.day)) [x] = [] := by
        simp [hx]
      rw [hfx, List.append_nil]
      simp only [List.foldl_cons, List.foldl_nil]
      rw [if_neg hx]

/-- Claim C7 (failing input): at `from = 2023-04-01` (month granularity,
breakpoint 1, horizontal weeks) the source's scan computes
`daysInMonth(March) + weekday(April 1) = 31 + 6 = 37` and yields 6 rows,
while the claimed rule `daysInMonth(April) + firstWeekday(April) = 30 + 6 =
36` yields 5: the code sums the length of the month *before* each scanned
month with the weekday of the block start. -/
theorem c7_maxrows_scan_divergence :
    (computeBlocksAndRows ⟨2023, 3, 1⟩ ⟨2023, 3, 2⟩ "month" 1 "horizontal").2 =
      MRM.val 6 ∧
    specMaxRowsMonthScan ⟨2023, 3, 1⟩ 1 = 5 := by
  constructor <;> decide

/-- Claim C8 (failing input): unrecognized `position`, `direction` and
`granularity` values silently fall through to the final else branch instead
of failing fast — an unknown legend position behaves exactly like
`vertical`/`after`, and an unknown granularity exactly like `month`. -/
theorem c8_unrecognized_fallthrough :
    (∀ (years : List YearEntry) (offset : ℚ),
      computeYearLegendPositions years "horizontal" "diagonal" offset =
        computeYearLegendPositions years "vertical" "after" offset) ∧
    (∀ (months : List MonthEntry) (offset : ℚ),
      computeMonthLegendPositions months "diagonal" "before" offset =
        computeMonthLegendPositions months "vertical" "after" offset) ∧
    (∀ (f t : CDate) (bp : Int) (wd : String),
      computeBlocksAndRows f t "banana" bp wd = computeBlocksAndRows f t "month" bp wd) := by
  refine ⟨fun years offset => ?_, fun months offset => ?_, fun f t bp wd => rfl⟩
  · unfold computeYearLegendPositions
    exact List.map_congr_left (fun a _ => rfl)
  · unfold computeMonthLegendPositions
    exact List.map_congr_left (fun a _ => rfl)

/-- Claim C9 (failing input): with `width = 0` (and positive day spacing)
`computeCellSize` returns the negative value −1 — no clamping to a
non-negative cell size happens — and `computeLayout` (with the startDate
argument supplied) still emits this negative cell size as regular output. -/
theorem c9_cellsize_not_clamped :
    computeCellSize 0 100 "horizontal" 1 0 0 1 6 84 12 = -1 ∧
    optHolds (fun L => L.cellSize = -1)
      (computeLayoutS zeroAlign
        ⟨0, 100, ⟨2023, 0, 1⟩, ⟨2023, 11, 31⟩, "horizontal", 0, 0, 1, "center",
         "horizontal", "year", 1⟩) := by
  constructor
  · decide!
  · decide!

/-- Claim C10: for a fixed bbox, the `before` and `after` legend anchors of
`computeYearLegendPositions`/`computeMonthLegendPositions` (per entry:
`yearLegendPosition`/`monthLegendPosition`) are reflections across the
bbox's relevant edge: along the offset axis they differ by exactly
`2·offset` plus the bbox extent on that axis, while the other coordinate and
the rotation coincide. -/
theorem c10_legend_anchor_symmetry (bbox : BBox) (offset : ℚ) (direction : String)
    (hdir : direction = "horizontal" ∨ direction = "vertical") :
    (direction = "horizontal" →
      (yearLegendPosition bbox direction "after" offset).1 -
          (yearLegendPosition bbox direction "before" offset).1 = 2 * offset + bbox.width ∧
      (yearLegendPosition bbox direction "after" offset).2.1 =
        (yearLegendPosition bbox direction "before" offset).2.1 ∧
      (monthLegendPosition bbox direction "after" offset).2.1 -
          (monthLegendPosition bbox direction "before" offset).2.1 = 2 * offset + bbox.height ∧
      (monthLegendPosition bbox direction "after" offset).1 =
        (monthLegendPosition bbox direction "before" offset).1) ∧
    (direction = "vertical" →
      (yearLegendPosition bbox direction "after" offset).2.1 -
          (yearLegendPosition bbox direction "before" offset).2.1 = 2 * offset + bbox.height ∧
      (yearLegendPosition bbox direction "after" offset).1 =
        (yearLegendPosition bbox direction "before" offset).1 ∧
      (monthLegendPosition bbox direction "after" offset).1 -
          (monthLegendPosition bbox direction "before" offset).1 = 2 * offset + bbox.width ∧
      (monthLegendPosition bbox direction "after" offset).2.1 =
        (monthLegendPosition bbox direction "before" offset).2.1) ∧
    (yearLegendPosition bbox direction "after" offset).2.2 =
      (yearLegendPosition bbox direction "before" offset).2.2 ∧
    (monthLegendPosition bbox direction "after" offset).2.2 =
      (monthLegendPosition bbox direction "before" offset).2.2 := by
  rcases hdir with h | h <;> subst h
  · refine ⟨fun _ => ⟨?_, rfl, ?_, rfl⟩, fun hv => absurd hv (by decide), rfl, rfl⟩
    · show bbox.x + bbox.width + offset - (bbox.x - offset) = 2 * offset + bbox.width
      ring
    · show bbox.y + bbox.height + offset - (bbox.y - offset) = 2 * offset + bbox.height
      ring
  · refine ⟨fun hh => absurd hh (by decide), fun _ => ⟨?_, rfl, ?_, rfl⟩, rfl, rfl⟩
    · show bbox.y + bbox.height + offset - (bbox.y - offset) = 2 * offset + bbox.height
      ring
    · show bbox.x + bbox.width + offset - (bbox.x - offset) = 2 * offset + bbox.width
      ring

/-- Claim C2 (amended): whenever `computeLayout` — with the block start
supplied for the position closures' missing `startDate` argument, and with
non-finite numeric states collapsed to failure — produces a layout, the
occupied extents fit the canvas: `calendarWidth ≤ width` and
`calendarHeight ≤ height` in exact arithmetic, because `computeCellSize`
returns the minimum of the two per-axis candidates. -/
theorem c2_cellsize_fit (alignB : BBox → BBox → String → ℚ × ℚ) (cfg : Config)
    (L : Layout) (hbp : 1 ≤ cfg.breakpoint)
    (h : computeLayoutS alignB cfg = some L) :
    L.calendarWidth ≤ cfg.width ∧ L.calendarHeight ≤ cfg.height := by
  unfold computeLayoutS at h
  simp only [computeLayoutCore] at h
  split at h
  · split at h
    · simp at h
    · rename_i mrmv mr hmrm dlist p ps heqd
      split at h
      · rename_i ds ys hdays hyears
        simp only [Option.some.injEq] at h
        subst h
        have hmrI : (4 : Int) ≤ mr ∧ mr ≤ 7 := by
          by_cases hw : cfg.weekDirection = "vertical"
          · rw [if_pos hw] at hmrm
            simp only [MRM.val.injEq] at hmrm
            omega
          · rw [if_neg hw] at hmrm
            have := blocksRows_inv cfg.fromDate cfg.toDate cfg.granularity
              cfg.breakpoint cfg.weekDirection mr hmrm
            omega
        have hbI : (1 : Int) ≤ ((computeBlocksAndRows cfg.fromDate cfg.toDate
            cfg.granularity cfg.breakpoint cfg.weekDirection).1.length : Int) := by
          rw [heqd]
          simp
        have hmpgI : (1 : Int) ≤
            (if cfg.granularity = "year" then cfg.breakpoint * 12 else cfg.breakpoint) := by
          split_ifs <;> omega
        have hmcgI : (1 : Int) ≤
            (if cfg.weekDirection = "vertical" then
              ((computeBlocksAndRows cfg.fromDate cfg.toDate cfg.granularity
                cfg.breakpoint cfg.weekDirection).1.map
                  (fun p => timeWeeksLen p.1 p.2)).foldl max 0 + 1
             else 7 * (if cfg.granularity = "year" then cfg.breakpoint * 12
                       else cfg.breakpoint)) := by
          split_ifs with hw hg
          · have := le_foldl_max ((computeBlocksAndRows cfg.fromDate cfg.toDate
              cfg.granularity cfg.breakpoint cfg.weekDirection).1.map
                (fun p => timeWeeksLen p.1 p.2)) 0
            omega
          · omega
          · omega
        have hfit := computeCellSize_fit cfg.width cfg.height cfg.direction
          (((computeBlocksAndRows cfg.fromDate cfg.toDate cfg.granularity
              cfg.breakpoint cfg.weekDirection).1.length : Int) : ℚ)
          cfg.yearSpacing cfg.monthSpacing cfg.daySpacing
          ((mr : Int) : ℚ)
          (((if cfg.weekDirection = "vertical" then
              ((computeBlocksAndRows cfg.fromDate cfg.toDate cfg.granularity
                cfg.breakpoint cfg.weekDirection).1.map
                  (fun p => timeWeeksLen p.1 p.2)).foldl max 0 + 1
             else 7 * (if cfg.granularity = "year" then cfg.breakpoint * 12
                       else cfg.breakpoint)) : Int) : ℚ)
          (((if cfg.granularity = "year" then cfg.breakpoint * 12
             else cfg.breakpoint) : Int) : ℚ)
          (by exact_mod_cast hbI)
          (by exact_mod_cast show (1 : Int) ≤ mr by omega)
          (by exact_mod_cast hmcgI)
        constructor
        · exact hfit.1
        · exact hfit.2
      · simp at h
  · simp at h

/-- Concrete instance of the C2 fit bound: a one-block 2023 calendar on an
84×7 canvas succeeds and its extents (54 and 7) fit the canvas. -/
theorem c2_witness :
    optHolds (fun L => L.calendarWidth ≤ 84 ∧ L.calendarHeight ≤ 7)
      (computeLayoutS zeroAlign ⟨84, 7, ⟨2023, 0, 1⟩, ⟨2023, 11, 31⟩,
        "horizontal", 0, 0, 0, "center", "vertical", "year", 1⟩) := by
  have hs : (computeLayoutS zeroAlign ⟨84, 7, ⟨2023, 0, 1⟩, ⟨2023, 11, 31⟩,
      "horizontal", 0, 0, 0, "center", "vertical", "year", 1⟩).isSome = true := by
    decide!
  cases heq : computeLayoutS zeroAlign ⟨84, 7, ⟨2023, 0, 1⟩, ⟨2023, 11, 31⟩,
      "horizontal", 0, 0, 0, "center", "vertical", "year", 1⟩ with
  | none => rw [heq] at hs; simp at hs
  | some L =>
    exact c2_cellsize_fit zeroAlign
      ⟨84, 7, ⟨2023, 0, 1⟩, ⟨2023, 11, 31⟩,
        "horizontal", 0, 0, 0, "center", "vertical", "year", 1⟩ L
      (by decide) heq

/-- Claim C6: with `granularity = 'month'` and `1 ≤ breakpoint < 12` (and a
non-empty range), every block's month list has exactly `breakpoint < 12`
entries, so the year-descriptor construction's read of index 11 is out of
bounds for every block and `computeLayout` cannot produce a year descriptor:
the error branch is reachable at the public interface, for the shipped
argument passing and for any other (`startDateArg` is arbitrary). -/
theorem c6_month_breakpoint_oob (alignB : BBox → BBox → String → ℚ × ℚ)
    (startDateArg : CDate → Option CDate) (cfg : Config)
    (hg : cfg.granularity = "month") (hbp1 : 1 ≤ cfg.breakpoint)
    (hbp : cfg.breakpoint < 12)
    (hne : toSerial ⟨cfg.fromDate.y, cfg.fromDate.m, 1⟩ < toSerial cfg.toDate) :
    (computeBlocksAndRows cfg.fromDate cfg.toDate cfg.granularity cfg.breakpoint
        cfg.weekDirection).1 ≠ [] ∧
    (∀ b ∈ (computeBlocksAndRows cfg.fromDate cfg.toDate cfg.granularity cfg.breakpoint
        cfg.weekDirection).1,
      (timeMonths b.1 b.2).length = cfg.breakpoint.toNat ∧
      (timeMonths b.1 b.2)[11]? = none) ∧
    computeLayoutCore alignB startDateArg cfg = none := by
  have hbw : computeBlocksAndRows cfg.fromDate cfg.toDate cfg.granularity cfg.breakpoint
      cfg.weekDirection =
      monthWalk ((toSerial cfg.toDate - toSerial ⟨cfg.fromDate.y, cfg.fromDate.m, 1⟩).toNat + 1)
        ⟨cfg.fromDate.y, cfg.fromDate.m, 1⟩ (toSerial cfg.toDate) cfg.breakpoint
        cfg.weekDirection MRM.undef := by
    unfold computeBlocksAndRows
    rw [hg, if_neg (by decide)]
  have hlen : ∀ b ∈ (computeBlocksAndRows cfg.fromDate cfg.toDate cfg.granularity
      cfg.breakpoint cfg.weekDirection).1,
      (timeMonths b.1 b.2).length = cfg.breakpoint.toNat ∧
      (timeMonths b.1 b.2)[11]? = none := by
    intro b hb
    rw [hbw] at hb
    have hsh := monthWalk_block_shape _ _ _ _ _ _ b hb
    have hl : (timeMonths b.1 b.2).length = cfg.breakpoint.toNat := by
      rw [hsh]
      exact timeMonths_addMonths_len b.1 cfg.breakpoint
    refine ⟨hl, ?_⟩
    rw [List.getElem?_eq_none]
    omega
  have hnonempty : (computeBlocksAndRows cfg.fromDate cfg.toDate cfg.granularity
      cfg.breakpoint cfg.weekDirection).1 ≠ [] := by
    rw [hbw]
    exact monthWalk_ne_nil _ _ _ _ _ _ hne
  refine ⟨hnonempty, hlen, ?_⟩
  cases h : computeLayoutCore alignB startDateArg cfg with
  | none => rfl
  | some L =>
    exfalso
    simp only [computeLayoutCore] at h
    split at h
    · split at h
      · simp at h
      · -- at least one block exists; its year descriptor fails the
        -- index-11 read, so the final match cannot produce a layout
        rename_i mr hmrm p ps heqd
        split at h
        · rename_i ds ys hdays hyears
          have hpmem : (0, p) ∈ ((computeBlocksAndRows cfg.fromDate cfg.toDate
              cfg.granularity cfg.breakpoint cfg.weekDirection).1).enum := by
            rw [heqd]
            exact List.mem_cons_self _ _
          obtain ⟨ye, hye⟩ := mapM_some_forall _ _ _ hyears (0, p) hpmem
          simp only at hye
          have h12 := blockYear_some_len _ _ _ hye
          rw [blockMonths_len] at h12
          have hl := (hlen p (by rw [heqd]; exact List.mem_cons_self _ _)).1
          omega
        · simp at h
    · simp at h

/-- Concrete instance of C6: a month-granularity config with breakpoint 3
(January to June 2023) yields no layout, regardless of the missing-argument
question. -/
theorem c6_witness :
    computeLayoutCore zeroAlign some
      ⟨100, 100, ⟨2023, 0, 15⟩, ⟨2023, 5, 1⟩, "horizontal", 0, 0, 0,
       "center", "horizontal", "month", 3⟩ = none :=
  (c6_month_breakpoint_oob zeroAlign some
    ⟨100, 100, ⟨2023, 0, 15⟩, ⟨2023, 5, 1⟩, "horizontal", 0, 0, 0,
     "center", "horizontal", "month", 3⟩
    (by decide) (by decide) (by decide) (by decide)).2.2

/-- Counterexample to claim C1 as stated: at the spec's own concrete
scenario (2023, granularity year, breakpoint 1) `computeLayout` returns no
days sequence at all: the day loop invokes the position closure with only
four arguments, so the closure dereferences the `undefined` `startDate` and
throws before any day entry is emitted. -/
theorem c1_counterexample :
    computeLayout zeroAlign
      ⟨500, 300, ⟨2023, 0, 1⟩, ⟨2023, 11, 31⟩, "horizontal", 2, 2, 1, "center",
       "vertical", "year", 1⟩ = none := by
  decide!

/-- Claim C1 (amended): whenever `computeLayout` — with the block start
supplied for the position closures' missing `startDate` argument — produces
a layout (and the dates stay within the four-digit-year regime the strict
`YYYY-MM-DD` contract presumes), the `days` sequence contains exactly one
entry per calendar day of the granularity-rounded range covered by the
blocks, block by block: the entries' dates are precisely the concatenation
of the blocks' `[start, end)` day enumerations, each entry's `day` key is
its date's strict format, each block's enumeration lists consecutive
serial days in increasing order, and all keys are pairwise distinct. -/
theorem c1_days_coverage (alignB : BBox → BBox → String → ℚ × ℚ)
    (cfg : Config) (L : Layout)
    (hv : cfg.fromDate.Valid) (hbp : 1 ≤ cfg.breakpoint)
    (hbound : ∀ b ∈ (computeBlocksAndRows cfg.fromDate cfg.toDate
        cfg.granularity cfg.breakpoint cfg.weekDirection).1,
      toSerial b.2 ≤ serial 10000 0 1)
    (h : computeLayoutS alignB cfg = some L) :
    L.days.map (fun e => e.date) =
      ((computeBlocksAndRows cfg.fromDate cfg.toDate cfg.granularity
          cfg.breakpoint cfg.weekDirection).1.map
        (fun b => timeDays b.1 b.2)).flatten ∧
    (∀ e ∈ L.days, e.day = dayFormat e.date) ∧
    (∀ b ∈ (computeBlocksAndRows cfg.fromDate cfg.toDate cfg.granularity
        cfg.breakpoint cfg.weekDirection).1,
      (timeDays b.1 b.2).map toSerial =
        intRange (toSerial b.1) (toSerial b.2 - toSerial b.1).toNat) ∧
    (L.days.map (fun e => e.day)).Nodup := by
  obtain ⟨c0, hch, hvs, hles⟩ := computeBlocksAndRows_struct cfg hv hbp
  have horder : ∀ b ∈ (computeBlocksAndRows cfg.fromDate cfg.toDate
      cfg.granularity cfg.breakpoint cfg.weekDirection).1,
      (timeDays b.1 b.2).map toSerial =
        intRange (toSerial b.1) (toSerial b.2 - toSerial b.1).toNat :=
    fun b hb => dayIter_map_serial b.1 _ (hvs b hb)
  unfold computeLayoutS at h
  simp only [computeLayoutCore] at h
  split at h
  · split at h
    · simp at h
    · rename_i mrmv mr hmrm dlist p ps heqd
      split at h
      · rename_i ds ys hdays hyears
        simp only [Option.some.injEq] at h
        subst h
        rcases Option.map_eq_some'.mp hdays with ⟨outl, houtl, hflat⟩
        have h2 := forall2_of_mapM _ _ _ houtl
        have hfacts : List.Forall₂ (fun pp bl =>
            bl.map (fun x => x.date) = timeDays pp.2.1 pp.2.2 ∧
            ∀ x ∈ bl, x.day = dayFormat x.date)
            ((computeBlocksAndRows cfg.fromDate cfg.toDate cfg.granularity
              cfg.breakpoint cfg.weekDirection).1.enum) outl :=
          h2.imp (fun pp bl hab => innerBlock_facts _ _ _ _ hab)
        have hmapdate : outl.map (List.map (fun x => x.date)) =
            ((computeBlocksAndRows cfg.fromDate cfg.toDate cfg.granularity
              cfg.breakpoint cfg.weekDirection).1.enum).map
              (fun pp => timeDays pp.2.1 pp.2.2) :=
          forall2_map_eq (List.map (fun x => x.date))
            (fun pp => timeDays pp.2.1 pp.2.2) _ _
            (hfacts.imp (fun a b hab => hab.1))
        have henum : ((computeBlocksAndRows cfg.fromDate cfg.toDate
            cfg.granularity cfg.breakpoint cfg.weekDirection).1.enum).map
              (fun pp => timeDays pp.2.1 pp.2.2) =
            (computeBlocksAndRows cfg.fromDate cfg.toDate cfg.granularity
              cfg.breakpoint cfg.weekDirection).1.map
              (fun b => timeDays b.1 b.2) := by
          have h5 : ((computeBlocksAndRows cfg.fromDate cfg.toDate
              cfg.granularity cfg.breakpoint cfg.weekDirection).1.enum).map
                (fun pp => timeDays pp.2.1 pp.2.2) =
              (((computeBlocksAndRows cfg.fromDate cfg.toDate cfg.granularity
                cfg.breakpoint cfg.weekDirection).1.enum).map Prod.snd).map
                (fun b => timeDays b.1 b.2) := by
            rw [List.map_map]
            rfl
          rw [h5, List.enum_map_snd]
        have hdates : ds.map (fun e => e.date) =
            ((computeBlocksAndRows cfg.fromDate cfg.toDate cfg.granularity
              cfg.breakpoint cfg.weekDirection).1.map
              (fun b => timeDays b.1 b.2)).flatten := by
          rw [← hflat, List.map_flatten, hmapdate, henum]
        have hdayfmt : ∀ e ∈ ds, e.day = dayFormat e.date := by
          have hballs : ∀ bl ∈ outl, ∀ x ∈ bl, x.day = dayFormat x.date :=
            forall2_mem_right _ _ _ (hfacts.imp (fun a b hab => hab.2))
          intro e he
          rw [← hflat] at he
          obtain ⟨bl, hbl, hebl⟩ := List.mem_flatten.mp he
          exact hballs bl hbl e hebl
        refine ⟨hdates, hdayfmt, horder, ?_⟩
        have hkey : ds.map (fun e => e.day) =
            (ds.map (fun e => e.date)).map dayFormat := by
          rw [List.map_map]
          exact List.map_congr_left (fun e he => hdayfmt e he)
        have hserials := (chained_days_sorted
          (computeBlocksAndRows cfg.fromDate cfg.toDate cfg.granularity
            cfg.breakpoint cfg.weekDirection).1 c0 hch hvs hles).1
        rw [List.pairwise_map] at hserials
        have hmemf : ∀ d ∈ ((computeBlocksAndRows cfg.fromDate cfg.toDate
            cfg.granularity cfg.breakpoint cfg.weekDirection).1.map
              (fun b => timeDays b.1 b.2)).flatten,
            d.Valid ∧ d.y ≤ 9999 := by
          intro d hd
          obtain ⟨l2, hl2, hdl⟩ := List.mem_flatten.mp hd
          obtain ⟨b, hb, hbeq2⟩ := List.mem_map.mp hl2
          rw [← hbeq2] at hdl
          have hbv := hvs b hb
          have hdvalid : d.Valid := dayIter_valid b.1 _ hbv d hdl
          refine ⟨hdvalid, ?_⟩
          have hser : toSerial d ∈
              intRange (toSerial b.1) (toSerial b.2 - toSerial b.1).toNat := by
            rw [← dayIter_map_serial b.1 _ hbv]
            exact List.mem_map_of_mem toSerial hdl
          rw [intRange_mem] at hser
          have hbnd := hbound b hb
          have hble := hles b hb
          by_contra hy2
          push_neg at hy2
          have hyb := (toSerial_year_bounds d hdvalid).1
          have hjm := serial_jan1_mono 10000 d.y (by omega)
          omega
        have hnd : List.Pairwise (fun x y => x ≠ y)
            ((((computeBlocksAndRows cfg.fromDate cfg.toDate cfg.granularity
              cfg.breakpoint cfg.weekDirection).1.map
                (fun b => timeDays b.1 b.2)).flatten).map dayFormat) := by
          rw [List.pairwise_map]
          refine List.Pairwise.imp_of_mem ?_ hserials
          intro d e hd he hlt heq
          have hde := dayFormat_inj d e (hmemf d hd).1 (hmemf e he).1
            (hmemf d hd).2 (hmemf e he).2 heq
          rw [hde] at hlt
          exact lt_irrefl _ hlt
        show (ds.map (fun e => e.day)).Nodup
        rw [hkey, hdates]
        exact hnd
      · simp at h
  · simp at h

/-- Concrete instance of the C1 coverage bound: the repaired layout for the
year 2023 emits pairwise-distinct formatted day keys. -/
theorem c1_witness :
    optHolds (fun L => (L.days.map (fun e => e.day)).Nodup)
      (computeLayoutS zeroAlign ⟨84, 7, ⟨2023, 0, 1⟩, ⟨2023, 11, 31⟩,
        "horizontal", 0, 0, 0, "center", "vertical", "year", 1⟩) := by
  have hs : (computeLayoutS zeroAlign ⟨84, 7, ⟨2023, 0, 1⟩, ⟨2023, 11, 31⟩,
      "horizontal", 0, 0, 0, "center", "vertical", "year", 1⟩).isSome = true := by
    decide!
  cases heq : computeLayoutS zeroAlign ⟨84, 7, ⟨2023, 0, 1⟩, ⟨2023, 11, 31⟩,
      "horizontal", 0, 0, 0, "center", "vertical", "year", 1⟩ with
  | none => rw [heq] at hs; simp at hs
  | some L =>
    exact (c1_days_coverage zeroAlign
      ⟨84, 7, ⟨2023, 0, 1⟩, ⟨2023, 11, 31⟩,
        "horizontal", 0, 0, 0, "center", "vertical", "year", 1⟩ L
      (by decide) (by decide) (by decide!) heq).2.2.2

/-- Counterexample to claim C2 as stated: for the valid configuration
`from = 2015-03-01`, `to = 2015-03-05`, granularity month, breakpoint 1,
horizontal weeks, no `calendarWidth ≤ width` judgement can hold because
`computeLayout` produces no finite numbers: February 2015 has 28 days and
March 1st 2015 is a Sunday, so the scan hits `Math.max(undefined, 4) = NaN`
and the single block keeps `maxRowsMonth = NaN`, poisoning every numeric
output (and the shipped argument passing already throws in the day loop). -/
theorem c2_counterexample :
    computeLayout zeroAlign
      ⟨100, 100, ⟨2015, 2, 1⟩, ⟨2015, 2, 5⟩, "horizontal", 0, 0, 0, "center",
       "horizontal", "month", 1⟩ = none ∧
    computeLayoutS zeroAlign
      ⟨100, 100, ⟨2015, 2, 1⟩, ⟨2015, 2, 5⟩, "horizontal", 0, 0, 0, "center",
       "horizontal", "month", 1⟩ = none := by
  constructor <;> decide!

/-- Counterexample to claim C3 as stated: besides `computeLayout` itself
returning nothing (the missing `startDate` argument), the geometry is wrong
even after that repair: with `direction = weekDirection = 'horizontal'`
(year 2023, breakpoint 1, 84×6 canvas, zero spacings, cell size 1) the day
cell of 2023-01-07 sits at `x = 6` while its owning January bbox spans
`[0, 5]` — the cell lies outside the month bbox (its `y` is even `NaN`,
since the source drops `getA`'s `cellSize` argument). -/
theorem c3_counterexample :
    computeLayout zeroAlign
      ⟨84, 6, ⟨2023, 0, 1⟩, ⟨2023, 11, 31⟩, "horizontal", 0, 0, 0, "center",
       "horizontal", "year", 1⟩ = none ∧
    optHolds (fun L =>
        L.days[6]?.map (fun de => (de.date, de.x, de.size)) =
          some (⟨2023, 0, 7⟩, some 6, 1) ∧
        L.months[0]?.map (fun me => (me.year, me.month, me.bbox.x, me.bbox.width)) =
          some (2023, 0, 0, 5) ∧
        ¬ ((6 : ℚ) + 1 ≤ 0 + 5))
      (computeLayoutS zeroAlign
        ⟨84, 6, ⟨2023, 0, 1⟩, ⟨2023, 11, 31⟩, "horizontal", 0, 0, 0, "center",
         "horizontal", "year", 1⟩) := by
  constructor <;> decide!

/-- Claim C3 (amended): in the `direction = 'horizontal'`,
`weekDirection = 'vertical'` branch with year granularity and breakpoint 1
— the configuration family for which the source's geometry is coherent —
whenever the repaired `computeLayout` produces a layout (and spacing and
cell size are non-negative), every day entry has finite coordinates owned
by a month descriptor of its own date's year and month whose bbox contains
the day cell, cell size included. -/
theorem c3_day_cell_containment (alignB : BBox → BBox → String → ℚ × ℚ)
    (cfg : Config) (L : Layout)
    (hdir : cfg.direction = "horizontal") (hwd : cfg.weekDirection = "vertical")
    (hg : cfg.granularity = "year") (hb1 : cfg.breakpoint = 1)
    (hv : cfg.fromDate.Valid) (hdsp : 0 ≤ cfg.daySpacing)
    (hcs : 0 ≤ L.cellSize)
    (h : computeLayoutS alignB cfg = some L) :
    ∀ e ∈ L.days, ∃ m ∈ L.months, m.year = e.date.y ∧ m.month = e.date.m ∧
      ∀ px, e.x = some px → ∀ py, e.y = some py →
        m.bbox.x ≤ px ∧ px + L.cellSize ≤ m.bbox.x + m.bbox.width ∧
        m.bbox.y ≤ py ∧ py + L.cellSize ≤ m.bbox.y + m.bbox.height := by
  obtain ⟨hfy, _, _, _, _⟩ := hv
  have s1 : (("vertical" : String) = "vertical") = True := by simp
  have s2 : (("vertical" : String) = "horizontal") = False := by simp
  have s3 : (("horizontal" : String) = "horizontal") = True := by simp
  have s4 : (("year" : String) = "year") = True := by simp
  unfold computeLayoutS at h
  simp only [computeLayoutCore] at h
  rw [hdir, hwd, hg, hb1] at h
  simp only [s1, s2, s3, s4, if_true, if_false] at h
  split at h
  · simp at h
  · rename_i dlist p ps heqd
    split at h
    · rename_i ds ys hdays hyears
      simp only [Option.some.injEq] at h
      subst h
      rcases Option.map_eq_some'.mp hdays with ⟨outl, houtl, hflat⟩
      have h2 := forall2_of_mapM _ _ _ houtl
      intro e he
      have he2 : e ∈ outl.flatten := by rw [hflat]; exact he
      obtain ⟨bl, hblmem, hebl⟩ := List.mem_flatten.mp he2
      obtain ⟨pp, hppmem, hppbl⟩ := forall2_exists_left _ _ _ h2 bl hblmem
      have hday := innerBlockHV_facts _ _ _ _ _ _ _ _ _ _ _ hppbl e hebl
      have hb2 : pp.2 ∈ (computeBlocksAndRows cfg.fromDate cfg.toDate
          "year" 1 "vertical").1 := by
        have h6 := List.mem_map_of_mem Prod.snd hppmem
        rwa [List.enum_map_snd] at h6
      have hbeq : (computeBlocksAndRows cfg.fromDate cfg.toDate
          "year" 1 "vertical").1 =
          (intRange cfg.fromDate.y
            ((cfg.toDate.y + 1) - cfg.fromDate.y).toNat).map
            (fun y => ((⟨y, 0, 1⟩ : CDate), (⟨y + 1, 0, 1⟩ : CDate))) := by
        have h7 : (computeBlocksAndRows cfg.fromDate cfg.toDate
            "year" 1 "vertical").1 =
            yearChunks
              (intRange cfg.fromDate.y
                ((cfg.toDate.y + 1) - cfg.fromDate.y).toNat).length
              (intRange cfg.fromDate.y
                ((cfg.toDate.y + 1) - cfg.fromDate.y).toNat) 1 := by
          simp only [computeBlocksAndRows, s4, if_true, yearRange_eq_intRange]
        rw [h7, yearChunks_one _ _ _ (by rw [intRange_length])]
      rw [hbeq] at hb2
      obtain ⟨yv, hyv, hppeq⟩ := List.mem_map.mp hb2
      rw [intRange_mem] at hyv
      have hyv1 : 1 ≤ yv := le_trans hfy hyv.1
      have hpp1 : pp.2.1 = (⟨yv, 0, 1⟩ : CDate) := by rw [← hppeq]
      have hpp2 : pp.2.2 = (⟨yv + 1, 0, 1⟩ : CDate) := by rw [← hppeq]
      obtain ⟨hdmem, hxval, hyval⟩ := hday
      rw [hpp1, hpp2] at hdmem
      have hsv : (⟨yv, 0, 1⟩ : CDate).Valid := jan1_valid yv hyv1
      have hev : e.date.Valid := dayIter_valid _ _ hsv _ hdmem
      have hserm : toSerial e.date ∈ intRange (toSerial ⟨yv, 0, 1⟩)
          (toSerial ⟨yv + 1, 0, 1⟩ - toSerial ⟨yv, 0, 1⟩).toNat := by
        rw [← dayIter_map_serial _ _ hsv]
        exact List.mem_map_of_mem toSerial hdmem
      rw [intRange_mem] at hserm
      have hmono := serial_jan1_mono yv (yv + 1) (by omega)
      have hyear : e.date.y = yv := by
        refine year_eq_of_serial_range e.date hev yv hserm.1 ?_
        show toSerial e.date < serial (yv + 1) 0 1
        have h9 : toSerial (⟨yv, 0, 1⟩ : CDate) = serial yv 0 1 := rfl
        have h10 : toSerial (⟨yv + 1, 0, 1⟩ : CDate) = serial (yv + 1) 0 1 := rfl
        have h8 := hserm.2
        omega
      have hevc : 1 ≤ e.date.y ∧ 0 ≤ e.date.m ∧ e.date.m ≤ 11 ∧
          1 ≤ e.date.d ∧ e.date.d ≤ daysInMonth e.date.y e.date.m := hev
      obtain ⟨hey, hem0, hem1, hed1, hed2⟩ := hevc
      have hmdmem : (⟨e.date.y, e.date.m, 1⟩ : CDate) ∈
          timeMonths ⟨yv, 0, 1⟩ ⟨yv + 1, 0, 1⟩ := by
        unfold timeMonths
        have h12 : (monthIdx ⟨yv + 1, 0, 1⟩ - monthIdx ⟨yv, 0, 1⟩).toNat = 12 := by
          show ((12 * (yv + 1) + 0) - (12 * yv + 0)).toNat = 12
          omega
        rw [h12]
        refine List.mem_map.mpr ⟨e.date.m.toNat, ?_, ?_⟩
        · rw [List.mem_range]
          omega
        · have h13 : monthIdx ⟨yv, 0, 1⟩ + (e.date.m.toNat : Int) =
              monthIdx ⟨e.date.y, e.date.m, 1⟩ := by
            show 12 * yv + 0 + (e.date.m.toNat : Int) = 12 * e.date.y + e.date.m
            omega
          rw [h13]
          exact monthFirst_monthIdx_self ⟨e.date.y, e.date.m, 1⟩ hey hem0 hem1 rfl
      rw [← hpp1, ← hpp2] at hmdmem
      refine ⟨_, List.mem_flatten.mpr
        ⟨_, List.mem_map_of_mem _ hppmem,
          blockMonths_mem _ _ _ _ _ _ _ _ _ _ _ hmdmem⟩, rfl, rfl, ?_⟩
      intro px hpx py hpy
      rw [hpp1, ← hyear] at hxval
      rw [hpx] at hxval
      rw [hpy] at hyval
      simp only [Option.some.injEq] at hxval hyval
      subst hxval
      subst hyval
      exact hv_cell_in_bbox _ _ _ _ _ _ _ e.date hev hcs hdsp
    · simp at h

/-- Concrete instance of the C3 containment: every day cell of the 2023
horizontal/vertical-weeks calendar sits inside its month's bbox. -/
theorem c3_witness :
    optHolds (fun L => ∀ e ∈ L.days, ∃ m ∈ L.months,
      m.year = e.date.y ∧ m.month = e.date.m ∧
      ∀ px, e.x = some px → ∀ py, e.y = some py →
        m.bbox.x ≤ px ∧ px + L.cellSize ≤ m.bbox.x + m.bbox.width ∧
        m.bbox.y ≤ py ∧ py + L.cellSize ≤ m.bbox.y + m.bbox.height)
      (computeLayoutS zeroAlign ⟨84, 7, ⟨2023, 0, 1⟩, ⟨2023, 11, 31⟩,
        "horizontal", 0, 0, 0, "center", "vertical", "year", 1⟩) := by
  have hs : (computeLayoutS zeroAlign ⟨84, 7, ⟨2023, 0, 1⟩, ⟨2023, 11, 31⟩,
      "horizontal", 0, 0, 0, "center", "vertical", "year", 1⟩).isSome = true := by
    decide!
  have hcs0 : optHolds (fun L => 0 ≤ L.cellSize)
      (computeLayoutS zeroAlign ⟨84, 7, ⟨2023, 0, 1⟩, ⟨2023, 11, 31⟩,
        "horizontal", 0, 0, 0, "center", "vertical", "year", 1⟩) := by
    decide!
  cases heq : computeLayoutS zeroAlign ⟨84, 7, ⟨2023, 0, 1⟩, ⟨2023, 11, 31⟩,
      "horizontal", 0, 0, 0, "center", "vertical", "year", 1⟩ with
  | none => rw [heq] at hs; simp at hs
  | some L =>
    rw [heq] at hcs0
    exact c3_day_cell_containment zeroAlign
      ⟨84, 7, ⟨2023, 0, 1⟩, ⟨2023, 11, 31⟩,
        "horizontal", 0, 0, 0, "center", "vertical", "year", 1⟩ L
      rfl rfl rfl rfl (by decide) (by decide) hcs0 heq

/-- Counterexample to claim C4 as stated: besides `computeLayout` itself
returning nothing (the missing `startDate` argument), the emitted year bbox
differs from the union of the block's 12 month bboxes once the block is not
a January-to-December year: for the single block April 2023 – March 2024
(granularity month, breakpoint 12, 54×7 canvas, zero spacings, cell size 1)
the code emits `{x := 12, width := 2}` from months 0 and 11 alone, while
the union rectangle of the 12 month bboxes is `{x := 0, width := 53}`. -/
theorem c4_counterexample :
    computeLayout zeroAlign
      ⟨54, 7, ⟨2023, 3, 1⟩, ⟨2024, 2, 15⟩, "horizontal", 0, 0, 0, "center",
       "vertical", "month", 12⟩ = none ∧
    optHolds (fun L =>
        L.months.length = 12 ∧
        L.years.map (fun yr => yr.bbox) = [⟨12, 0, 2, 7⟩] ∧
        bboxUnion (L.months.map (fun mo => mo.bbox)) = ⟨0, 0, 53, 7⟩ ∧
        (⟨12, 0, 2, 7⟩ : BBox) ≠ ⟨0, 0, 53, 7⟩)
      (computeLayoutS zeroAlign
        ⟨54, 7, ⟨2023, 3, 1⟩, ⟨2024, 2, 15⟩, "horizontal", 0, 0, 0, "center",
         "vertical", "month", 12⟩) := by
  constructor <;> decide!

/-- Claim C4 (amended): for year-granularity breakpoint-1 configurations —
blocks that really are January-to-December years — and any direction,
whenever the repaired `computeLayout` produces a layout (with non-negative
month spacing and non-negative occupied cell extent), every emitted year
descriptor's bbox exactly equals the union rectangle of the bboxes of 12
month descriptors of the layout, all of the year's months. -/
theorem c4_year_bbox_union (alignB : BBox → BBox → String → ℚ × ℚ)
    (cfg : Config) (L : Layout)
    (hg : cfg.granularity = "year")
    (hb1 : cfg.breakpoint = 1) (hv : cfg.fromDate.Valid)
    (hms : 0 ≤ cfg.monthSpacing) (hcd : 0 ≤ L.cellSize + cfg.daySpacing)
    (h : computeLayoutS alignB cfg = some L) :
    ∀ ye ∈ L.years, ∃ ms12 : List MonthEntry, ms12.length = 12 ∧
      (∀ m ∈ ms12, m ∈ L.months ∧ m.year = ye.year.y) ∧
      ye.bbox = bboxUnion (ms12.map (fun m => m.bbox)) := by
  obtain ⟨hfy, _, _, _, _⟩ := hv
  have s4 : (("year" : String) = "year") = True := by simp
  unfold computeLayoutS at h
  simp only [computeLayoutCore] at h
  rw [hg, hb1] at h
  simp only [s4, if_true] at h
  split at h
  · split at h
    · simp at h
    · rename_i mrmv mr hmrm dlist p ps heqd
      split at h
      · rename_i ds ys hdays hyears
        simp only [Option.some.injEq] at h
        subst h
        intro ye hye
        have h2 := forall2_of_mapM _ _ _ hyears
        obtain ⟨pp, hppmem, hppye⟩ := forall2_exists_left _ _ _ h2 ye hye
        have hb2 : pp.2 ∈ (computeBlocksAndRows cfg.fromDate cfg.toDate
            "year" 1 cfg.weekDirection).1 := by
          have h6 := List.mem_map_of_mem Prod.snd hppmem
          rwa [List.enum_map_snd] at h6
        have hbeq : (computeBlocksAndRows cfg.fromDate cfg.toDate
            "year" 1 cfg.weekDirection).1 =
            (intRange cfg.fromDate.y
              ((cfg.toDate.y + 1) - cfg.fromDate.y).toNat).map
              (fun y => ((⟨y, 0, 1⟩ : CDate), (⟨y + 1, 0, 1⟩ : CDate))) := by
          have h7 : (computeBlocksAndRows cfg.fromDate cfg.toDate
              "year" 1 cfg.weekDirection).1 =
              yearChunks
                (intRange cfg.fromDate.y
                  ((cfg.toDate.y + 1) - cfg.fromDate.y).toNat).length
                (intRange cfg.fromDate.y
                  ((cfg.toDate.y + 1) - cfg.fromDate.y).toNat) 1 := by
            simp only [computeBlocksAndRows, s4, if_true, yearRange_eq_intRange]
          rw [h7, yearChunks_one _ _ _ (by rw [intRange_length])]
        rw [hbeq] at hb2
        obtain ⟨yv, hyv, hppeq⟩ := List.mem_map.mp hb2
        have hpp1 : pp.2.1 = (⟨yv, 0, 1⟩ : CDate) := by rw [← hppeq]
        have hpp2 : pp.2.2 = (⟨yv + 1, 0, 1⟩ : CDate) := by rw [← hppeq]
        rw [hpp1, hpp2] at hppye
        have htm : timeMonths ⟨yv, 0, 1⟩ ⟨yv + 1, 0, 1⟩ =
            (List.range 12).map
              (fun (k : Nat) => monthFirst (12 * yv + (k : Int))) := by
          unfold timeMonths
          have h9 : (monthIdx ⟨yv + 1, 0, 1⟩ - monthIdx ⟨yv, 0, 1⟩).toNat = 12 := by
            show ((12 * (yv + 1) + 0) - (12 * yv + 0)).toNat = 12
            omega
          have h8 : monthIdx ⟨yv, 0, 1⟩ = 12 * yv := by
            show 12 * yv + 0 = 12 * yv
            ring
          rw [h9]
          simp only [h8]
        have hyey : ye.year = (⟨yv, 0, 1⟩ : CDate) := blockYear_year _ _ _ hppye
        have hun := blockYear_bbox_union_any _ _ _ _ _ _ _ _ _ hms hcd ye hppye
        refine ⟨_, ?_, ?_, hun⟩
        · rw [blockMonths_len, htm]
          simp
        · intro m hm
          constructor
          · rw [← hpp1, ← hpp2] at hm
            exact List.mem_flatten.mpr
              ⟨_, List.mem_map_of_mem _ hppmem, hm⟩
          · unfold blockMonths at hm
            obtain ⟨md, hmd, hmeq⟩ := List.mem_map.mp hm
            rw [htm] at hmd
            obtain ⟨k, hk, hmdeq⟩ := List.mem_map.mp hmd
            rw [List.mem_range] at hk
            subst hmdeq
            rw [← hmeq]
            show (monthFirst (12 * yv + (k : Int))).y = ye.year.y
            rw [hyey]
            show (12 * yv + (k : Int)) / 12 = yv
            omega
      · simp at h
  · simp at h

/-- Concrete instance of the C4 union law: the 2023 year descriptor's bbox
is the union of its 12 month bboxes. -/
theorem c4_witness :
    optHolds (fun L => ∀ ye ∈ L.years, ∃ ms12 : List MonthEntry,
      ms12.length = 12 ∧
      (∀ m ∈ ms12, m ∈ L.months ∧ m.year = ye.year.y) ∧
      ye.bbox = bboxUnion (ms12.map (fun m => m.bbox)))
      (computeLayoutS zeroAlign ⟨84, 7, ⟨2023, 0, 1⟩, ⟨2023, 11, 31⟩,
        "horizontal", 0, 0, 0, "center", "vertical", "year", 1⟩) := by
  have hs : (computeLayoutS zeroAlign ⟨84, 7, ⟨2023, 0, 1⟩, ⟨2023, 11, 31⟩,
      "horizontal", 0, 0, 0, "center", "vertical", "year", 1⟩).isSome = true := by
    decide!
  have hcd0 : optHolds (fun L => 0 ≤ L.cellSize + 0)
      (computeLayoutS zeroAlign ⟨84, 7, ⟨2023, 0, 1⟩, ⟨2023, 11, 31⟩,
        "horizontal", 0, 0, 0, "center", "vertical", "year", 1⟩) := by
    decide!
  cases heq : computeLayoutS zeroAlign ⟨84, 7, ⟨2023, 0, 1⟩, ⟨2023, 11, 31⟩,
      "horizontal", 0, 0, 0, "center", "vertical", "year", 1⟩ with
  | none => rw [heq] at hs; simp at hs
  | some L =>
    rw [heq] at hcd0
    exact c4_year_bbox_union zeroAlign
      ⟨84, 7, ⟨2023, 0, 1⟩, ⟨2023, 11, 31⟩,
        "horizontal", 0, 0, 0, "center", "vertical", "year", 1⟩ L
      rfl rfl (by decide) (by decide) hcd0 heq

/-- Witness for C10 at a concrete box and offset. -/
theorem c10_witness :
    (yearLegendPosition ⟨1, 2, 3, 4⟩ "horizontal" "after" 5).1 -
        (yearLegendPosition ⟨1, 2, 3, 4⟩ "horizontal" "before" 5).1 = 2 * 5 + 3 := by
  exact ((c10_legend_anchor_symmetry ⟨1, 2, 3, 4⟩ 5 "horizontal" (Or.inl rfl)).1 rfl).1

end Calendar
